import Mathlib

/-!
# heaptrace: user breakpoints (`src/user-breakpoint.c`)

A shallow embedding of the breakpoint subsystem: the tokenizer, the
token-to-descriptor parser, the registry (insertion, release, referenced
names), the symbol resolver and the trigger evaluator, followed by theorems
about them.

Conventions of the embedding.

* A C string is the `List Char` of its characters, the terminating NUL left
  out. The tokenizer, whose loop reads the terminator itself, treats the end of
  the list as that NUL and also stops at a NUL inside the list.
* A singly linked list is a `List` of its nodes, the `next` pointer being the
  tail; a null pointer is the empty list (or `none` for a nullable string).
* `exit(1)` after `fatal(...)` and a failed `ASSERT` are the `Except.error`
  outcome carrying the diagnostic text; `log`, `warn` and `debug` only print
  and are left out.
* `uint64_t` / `size_t` values are natural numbers reduced modulo `2 ^ 64`
  where the program stores them.
-/

namespace Heaptrace

/-! ## Data model -/

/-- The two token types of `UBPTType`. -/
inductive UBPTType where
  | UBPT_TYPE_IDENTIFIER
  | UBPT_TYPE_PUNCTUATOR
  deriving DecidableEq, Repr

/-- A `UserBreakpointToken` node without its `next` link: `type`, the owned
copy `value` and the source offset `i`. -/
structure UserBreakpointToken where
  type : UBPTType
  value : List Char
  i : Nat
  deriving DecidableEq, Repr

/-- The sign of an address term (`UBPA_OPERATION_*`). -/
inductive UBPAOperation where
  | UBPA_OPERATION_ADD
  | UBPA_OPERATION_SUBTRACT
  deriving DecidableEq, Repr

/-- A `UserBreakpointAddress` node without its `next_operation` link. A null
`symbol_name` is `none`. -/
structure UserBreakpointAddress where
  operation : UBPAOperation
  address : Nat
  symbol_name : Option (List Char)
  deriving DecidableEq, Repr

/-- The phase of a breakpoint (`UBPWhen`). -/
inductive UBPWhen where
  | UBP_WHEN_BEFORE
  | UBP_WHEN_AFTER
  deriving DecidableEq, Repr

/-- The condition kind of a breakpoint (`UBPWhat`). -/
inductive UBPWhat where
  | UBP_WHAT_ADDRESS
  | UBP_WHAT_OID
  | UBP_WHAT_SEGFAULT
  | UBP_WHAT_ENTRY
  deriving DecidableEq, Repr

/-- A `UserBreakpoint` node without its `next` link. The field `what` is
`none` while it still holds the zero bytes of `calloc` (the header that fixes
which enumerator is zero is not part of this file); `address` is the term list
hanging off the `address` pointer. -/
structure UserBreakpoint where
  name : List Char
  when : UBPWhen
  what : Option UBPWhat
  count : Nat
  oid : Nat
  h_i : Nat
  address : List UserBreakpointAddress
  deriving DecidableEq, Repr

/-- The two helpers of `util.h` that the parser calls and whose bodies live
outside this file: `is_uint` decides whether a token text is an unsigned
integer literal, `str_to_uint64` converts it. -/
structure Util where
  is_uint : List Char → Bool
  str_to_uint64 : List Char → Nat

/-! ## Tokenization -/

/-- The sign and separator characters that the tokenizer emits as
punctuators: `c == ':' || c == '+' || c == '-' || c == '='`. -/
def isPunctChar (c : Char) : Bool :=
  c == ':' || c == '+' || c == '-' || c == '='

/-- The whitespace skipped outside a token:
`c == ' ' || c == '\t' || c == '\n'`. -/
def isSpaceChar (c : Char) : Bool :=
  c == ' ' || c == '\t' || c == '\n'

/-- The characters that close an identifier (line 57): a punctuator, the
terminating NUL or whitespace. -/
def isBoundaryChar (c : Char) : Bool :=
  isPunctChar c || c == '\x00' || isSpaceChar c

/-- The result of `strncpy(dst, s, n)` into a zeroed buffer, read back as a C
string: at most `n` characters of `s`, stopping at a NUL. -/
def strncpy (s : List Char) (n : Nat) : List Char :=
  (s.take n).takeWhile (fun c => c != '\x00')

/-- `_create_token(s, s_sz, type, i)`. -/
def _create_token (s : List Char) (s_sz : Nat) (type : UBPTType) (i : Nat) :
    UserBreakpointToken :=
  { type := type, value := strncpy s s_sz, i := i }

/-- The local variables of `tokenize_user_breakpoint_str`. `start_ptr` is kept
as an index into the input. `chain` holds every token created so far in link
order (each new token is hung on `cur_token->next`, so `cur_token` is the last
element); `token_head` is the position in `chain` the head pointer refers to,
`none` while it is null. -/
structure TokState where
  start_ptr : Nat
  in_token : Bool
  chain : List UserBreakpointToken
  token_head : Option Nat
  deriving DecidableEq, Repr

/-- One pass through the body of the `for` loop at index `i`, character `c`. -/
def tok_body (breakpoint : List Char) (st : TokState) (i : Nat) (c : Char) : TokState :=
  if st.in_token = false ∧ isSpaceChar c = true then
    st -- skip whitespace: `continue`
  else
    -- start token
    let st1 : TokState :=
      if st.in_token = false then { st with start_ptr := i, in_token := true } else st
    -- if in the middle of a token
    let st2 : TokState :=
      if st1.start_ptr ≠ i ∧ isBoundaryChar c = true then
        { start_ptr := i
          in_token := false
          chain := st1.chain ++
            [_create_token (breakpoint.drop st1.start_ptr) (i - st1.start_ptr)
              UBPTType.UBPT_TYPE_IDENTIFIER (i - (i - st1.start_ptr))]
          -- `if (!token_head) token_head = next_token;`
          token_head :=
            match st1.token_head with
            | none => some st1.chain.length
            | some k => some k }
      else st1
    if isPunctChar c = true then
      { start_ptr := st2.start_ptr
        in_token := false
        chain := st2.chain ++
          [_create_token (breakpoint.drop st2.start_ptr) 1
            UBPTType.UBPT_TYPE_PUNCTUATOR (i - (i - st2.start_ptr))]
        -- `if (!token_head) token_head = cur_token;`
        token_head :=
          match st2.token_head with
          | none => if st2.chain = [] then none else some (st2.chain.length - 1)
          | some k => some k }
    else st2

/-- The `for` loop: `i` runs over `0 .. strlen(breakpoint)` inclusive, the last
pass reading the terminating NUL. The second argument is the input from index
`i` on. -/
def tok_loop (breakpoint : List Char) : List Char → Nat → TokState → TokState
  | [], i, st => tok_body breakpoint st i '\x00'
  | c :: cs, i, st =>
    if c = '\x00' then tok_body breakpoint st i '\x00'
    else tok_loop breakpoint cs (i + 1) (tok_body breakpoint st i c)

/-- The state before the first pass. -/
def tok_init : TokState :=
  { start_ptr := 0, in_token := false, chain := [], token_head := none }

/-- The list reachable from the returned `token_head`. -/
def tok_result (st : TokState) : List UserBreakpointToken :=
  match st.token_head with
  | none => []
  | some k => st.chain.drop k

/-- `tokenize_user_breakpoint_str(breakpoint)`. -/
def tokenize_user_breakpoint_str (breakpoint : List Char) : List UserBreakpointToken :=
  tok_result (tok_loop breakpoint breakpoint 0 tok_init)

/-! ## Token to descriptor conversion -/

/-- The freshly `calloc`-ed term after `cur_ubpa->operation = UBPA_OPERATION_ADD`. -/
def new_ubpa : UserBreakpointAddress :=
  { operation := UBPAOperation.UBPA_OPERATION_ADD, address := 0, symbol_name := none }

/-- `NEXT()`: `cur_token && cur_token->next ? cur_token->next : 0`, on the list
that starts at `cur_token`. -/
def NEXT (cur_token : List UserBreakpointToken) : List UserBreakpointToken :=
  cur_token.tail

/-- `GET()`: `EXPECT(cur_token && cur_token->next, ...); cur_token = cur_token->next;`. -/
def GET (cur_token : List UserBreakpointToken) : Except String (List UserBreakpointToken) :=
  if cur_token.tail = [] then Except.error "expected a token following this one"
  else Except.ok cur_token.tail

/-- The `while (1)` loop of `_parse_token_expression`, one token per pass.
`done` holds the terms already linked before `cur_ubpa` (so
`ubp->address != cur_ubpa` is `done ≠ []`), `cur_ubpa` is the term being
filled. The result is the finished term list `ubp->address` together with the
returned `cur_token` (the list from that token on, `[]` for null). -/
def parse_expression_loop (U : Util) :
    List UserBreakpointToken → List UserBreakpointAddress → UserBreakpointAddress →
      Except String (List UserBreakpointAddress × List UserBreakpointToken)
  | [], done, cur_ubpa => Except.ok (done ++ [cur_ubpa], [])
  | tok :: rest, done, cur_ubpa =>
    if tok.type = UBPTType.UBPT_TYPE_PUNCTUATOR then
      -- if this isn't the first run... save current ubpa
      let done1 := if done ≠ [] then done ++ [cur_ubpa] else done
      let cur1 := if done ≠ [] then new_ubpa else cur_ubpa
      if tok.value = "+".toList then
        if NEXT (tok :: rest) = [] then Except.error "missing expression after operator"
        else parse_expression_loop U rest done1 cur1
      else if tok.value = "-".toList then
        let cur2 : UserBreakpointAddress :=
          if cur1.operation = UBPAOperation.UBPA_OPERATION_SUBTRACT then
            { cur1 with operation := UBPAOperation.UBPA_OPERATION_ADD }
          else { cur1 with operation := UBPAOperation.UBPA_OPERATION_SUBTRACT }
        if NEXT (tok :: rest) = [] then Except.error "missing expression after operator"
        else parse_expression_loop U rest done1 cur2
      else if tok.value = ":".toList then
        Except.ok (done1 ++ [cur1], tok :: rest) -- `break`
      else Except.error "invalid operation"
    else
      let cur1 : UserBreakpointAddress :=
        if U.is_uint tok.value = true then
          { cur_ubpa with address := U.str_to_uint64 tok.value % 2 ^ 64 }
        else { cur_ubpa with symbol_name := some tok.value }
      -- `cur_token = cur_token->next; if (!cur_token) break;`
      if rest = [] then Except.ok (done ++ [cur1], [])
      else parse_expression_loop U rest done cur1

/-- `_parse_token_expression(ubp, cur_token)`: the new value of `ubp->address`
and the returned token pointer. `EXPECT(!!cur_token, "expression missing")` is
the empty-list case, which `create_user_breakpoint` never reaches: it calls
with the token a successful `GET()` has just stepped to. -/
def _parse_token_expression (U : Util) (cur_token : List UserBreakpointToken) :
    Except String (List UserBreakpointAddress × List UserBreakpointToken) :=
  if cur_token = [] then Except.error "expression missing"
  else parse_expression_loop U cur_token [] new_ubpa

/-- The `ACTION_COUNT` pass of the `while (cur_token)` loop of
`create_user_breakpoint`; a null `cur_token` leaves the loop. -/
def action_count (U : Util) (ubp : UserBreakpoint) :
    List UserBreakpointToken → Except String UserBreakpoint
  | [] => Except.ok ubp
  | tok :: _ =>
    if tok.type ≠ UBPTType.UBPT_TYPE_IDENTIFIER then
      Except.error "expected identifier 'count'"
    else Except.ok { ubp with count := U.str_to_uint64 tok.value % 2 ^ 64 } -- `break`

/-- The `ACTION_ADDRESS` pass: parse the expression, switch to `ACTION_COUNT`,
step with `cur_token = NEXT()` and go round the loop again. -/
def action_address (U : Util) (ubp : UserBreakpoint) :
    List UserBreakpointToken → Except String UserBreakpoint
  | [] => Except.ok ubp
  | tok :: rest =>
    match _parse_token_expression U (tok :: rest) with
    | Except.error e => Except.error e
    | Except.ok (address, cur_token) =>
      action_count U { ubp with address := address } (NEXT cur_token)

/-- The code at the label `expect_address`: two `GET()`s around the check for
the `=` punctuator, then `continue` into the `ACTION_ADDRESS` pass. -/
def expect_address (U : Util) (ubp : UserBreakpoint)
    (cur_token : List UserBreakpointToken) : Except String UserBreakpoint :=
  match GET cur_token with
  | Except.error e => Except.error e
  | Except.ok cur1 =>
    match cur1 with
    | [] => Except.error "expected a token following this one"
    | eq :: _ =>
      if ¬ (eq.type = UBPTType.UBPT_TYPE_PUNCTUATOR ∧ eq.value = "=".toList) then
        Except.error "unexpected token"
      else
        match GET cur1 with
        | Except.error e => Except.error e
        | Except.ok cur2 => action_address U ubp cur2

/-- The `ACTION_WHAT` pass, the first pass of the loop. -/
def action_what (U : Util) (ubp : UserBreakpoint) :
    List UserBreakpointToken → Except String UserBreakpoint
  | [] => Except.ok ubp
  | tok :: rest =>
    if tok.type ≠ UBPTType.UBPT_TYPE_IDENTIFIER then Except.error "expected an identifier"
    else if tok.value = "address".toList ∨ tok.value = "addr".toList then
      expect_address U { ubp with what := some UBPWhat.UBP_WHAT_ADDRESS } (tok :: rest)
    else if tok.value = "oid".toList ∨ tok.value = "operation".toList ∨
        tok.value = "number".toList then
      expect_address U { ubp with what := some UBPWhat.UBP_WHAT_OID } (tok :: rest)
    else if tok.value = "segfault".toList ∨ tok.value = "sigsegv".toList ∨
        tok.value = "segv".toList then
      Except.ok { ubp with what := some UBPWhat.UBP_WHAT_SEGFAULT }
    else if tok.value = "main".toList ∨ tok.value = "entry".toList ∨
        tok.value = "start".toList ∨ tok.value = "_entry".toList then
      Except.ok { ubp with what := some UBPWhat.UBP_WHAT_ENTRY }
    else
      Except.error "unknown 'what': please choose one of [oid, address, segfault, entry]"

/-- The zeroed descriptor after `name`, `when` and `count` are set. -/
def new_ubp (name : List Char) : UserBreakpoint :=
  { name := name, when := UBPWhen.UBP_WHEN_BEFORE, what := none, count := 1,
    oid := 0, h_i := 0, address := [] }

/-- `create_user_breakpoint(name)`. The loop makes at most three passes, one
per value of `cur_action`, written here as `action_what`, `action_address` and
`action_count`. -/
def create_user_breakpoint (U : Util) (name : List Char) : Except String UserBreakpoint :=
  action_what U (new_ubp name) (tokenize_user_breakpoint_str name)

/-! ### A reading of the `util.h` helpers -/

/-- The value of a hexadecimal digit. -/
def hexDigitVal (c : Char) : Option Nat :=
  if '0' ≤ c ∧ c ≤ '9' then some (c.toNat - '0'.toNat)
  else if 'a' ≤ c ∧ c ≤ 'f' then some (c.toNat - 'a'.toNat + 10)
  else if 'A' ≤ c ∧ c ≤ 'F' then some (c.toNat - 'A'.toNat + 10)
  else none

/-- Whether `c` is a digit in base `b`. -/
def isDigitIn (b : Nat) (c : Char) : Bool :=
  match hexDigitVal c with
  | some v => decide (v < b)
  | none => false

/-- The number written by the leading base-`b` digits of `s`, after `acc`. -/
def digitsVal (b : Nat) : List Char → Nat → Nat
  | [], acc => acc
  | c :: cs, acc =>
    match hexDigitVal c with
    | some v => if v < b then digitsVal b cs (acc * b + v) else acc
    | none => acc

/-- Modelled from the spec: `is_uint` and `str_to_uint64` are defined outside
this file. The spec classifies a term as a literal when it is "parseable as
unsigned integer" and reads `0x10` as 16, so a literal is a non-empty run of
decimal digits, or `0x` followed by a non-empty run of hexadecimal digits. -/
def specUtil : Util where
  is_uint s :=
    match s with
    | '0' :: 'x' :: d :: ds => (d :: ds).all (isDigitIn 16)
    | [] => false
    | _ => s.all (isDigitIn 10)
  str_to_uint64 s :=
    match s with
    | '0' :: 'x' :: d :: ds => digitsVal 16 (d :: ds) 0 % 2 ^ 64
    | _ => digitsVal 10 s 0 % 2 ^ 64

/-! ## Symbol resolution -/

/-- The classification of a symbol-table entry. Only `SE_TYPE_STATIC` is named
in this file; every other value takes the same branch and is one constructor. -/
inductive SEType where
  | SE_TYPE_STATIC
  | SE_TYPE_DYNAMIC
  deriving DecidableEq, Repr

/-- A `SymbolEntry` node without its `next` link. -/
structure SymbolEntry where
  name : List Char
  type : SEType
  offset : Nat
  deriving DecidableEq, Repr

/-- The kind of a segment-map entry. Only `PROCELF_TYPE_BINARY` is named in
this file; `PROCELF_TYPE_LIBC` stands for the dynamic linker/libc segment the
spec speaks of. -/
inductive ProcELFType where
  | PROCELF_TYPE_BINARY
  | PROCELF_TYPE_LIBC
  | PROCELF_TYPE_UNKNOWN
  deriving DecidableEq, Repr

/-- A `ProcMapsEntry` node without its `next` link: its kind and load base. -/
structure ProcMapsEntry where
  pet : ProcELFType
  base : Nat
  deriving DecidableEq, Repr

/-- The process states the evaluator tells apart; any state other than the two
named in this file is `PROCESS_STATE_RUNNING`. -/
inductive ProcessState where
  | PROCESS_STATE_ENTRY
  | PROCESS_STATE_SEGFAULT
  | PROCESS_STATE_RUNNING
  deriving DecidableEq, Repr

/-- The fields of `HeaptraceContext` this file reads. -/
structure HeaptraceContext where
  pme_head : List ProcMapsEntry
  se_head : List SymbolEntry
  is_dynamic : Bool
  h_oid : Nat
  h_state : ProcessState
  what : Option UBPWhat
  pid : Nat
  deriving DecidableEq, Repr

/-- Modelled from the spec: `pme_walk` is defined outside this file. The
segment map "must expose a query returning the load base address of the main
binary": the first entry of the requested kind, or null. -/
def pme_walk (pme_head : List ProcMapsEntry) (pet : ProcELFType) : Option ProcMapsEntry :=
  pme_head.find? (fun pme => decide (pme.pet = pet))

/-- `_is_reference_constant(name)`. -/
def _is_reference_constant (name : List Char) : Bool :=
  if name = "bin".toList ∨ name = "libc".toList then true else false

/-- The `while (cur_se)` search of `fill_symbol_references` for the term
`cur_ubpa` carrying the name `symbol_name`: `some` of the rewritten term when
an entry matched (`resolved = 1`), `none` when the table was exhausted. -/
def se_loop (bin_base : Nat) (cur_ubpa : UserBreakpointAddress) (symbol_name : List Char) :
    List SymbolEntry → Option UserBreakpointAddress
  | [] => none
  | cur_se :: rest =>
    if symbol_name = cur_se.name then
      -- found the symbol!
      if cur_se.type ≠ SEType.SE_TYPE_STATIC then
        some { cur_ubpa with symbol_name := none }
      else
        some { cur_ubpa with symbol_name := none,
                             address := (bin_base + cur_se.offset) % 2 ^ 64 }
    else se_loop bin_base cur_ubpa symbol_name rest

/-- The body of the `while (cur_ubpa)` loop of `fill_symbol_references`: what
the pass does to one term. The statement `cur_ubpa->address;` of the
not-resolved branch has no effect. -/
def fill_ubpa (bin_base : Nat) (se_head : List SymbolEntry)
    (cur_ubpa : UserBreakpointAddress) : UserBreakpointAddress :=
  match cur_ubpa.symbol_name with
  | none => cur_ubpa
  | some symbol_name =>
    if _is_reference_constant symbol_name = false then
      match se_loop bin_base cur_ubpa symbol_name se_head with
      | some resolved => resolved
      | none => { cur_ubpa with symbol_name := none }
    else cur_ubpa -- only a warning for "libc" on a static target

/-- The body of the `while (cur_ubp)` loop of `fill_symbol_references`. -/
def fill_ubp (bin_base : Nat) (se_head : List SymbolEntry) (cur_ubp : UserBreakpoint) :
    UserBreakpoint :=
  { cur_ubp with address := cur_ubp.address.map (fill_ubpa bin_base se_head) }

/-- `fill_symbol_references(ctx)` on the registry hanging off
`USER_BREAKPOINT_HEAD`: the registry afterwards, or the failed assertion. -/
def fill_symbol_references (ctx : HeaptraceContext) (USER_BREAKPOINT_HEAD : List UserBreakpoint) :
    Except String (List UserBreakpoint) :=
  match pme_walk ctx.pme_head ProcELFType.PROCELF_TYPE_BINARY with
  | none => Except.error "cannot find binary base address"
  | some bin_pme => Except.ok (USER_BREAKPOINT_HEAD.map (fill_ubp bin_pme.base ctx.se_head))

/-! ## Checking breakpoints -/

/-- The `while (cur_ubpa)` loop of `_check_breakpoint_logic`: the running
64-bit sum `ptr`, or the failed assertion on a term that still carries a
symbol name. -/
def address_sum : List UserBreakpointAddress → Nat → Except String Nat
  | [], ptr => Except.ok ptr
  | cur_ubpa :: rest, ptr =>
    match cur_ubpa.symbol_name with
    | some _ => Except.error "unable to check user breakpoint; symbol not resolved"
    | none =>
      match cur_ubpa.operation with
      | UBPAOperation.UBPA_OPERATION_ADD => address_sum rest ((ptr + cur_ubpa.address) % 2 ^ 64)
      | UBPAOperation.UBPA_OPERATION_SUBTRACT =>
        address_sum rest ((ptr + 2 ^ 64 - cur_ubpa.address % 2 ^ 64) % 2 ^ 64)

/-- `_check_breakpoint_logic(ctx, ubp, when)`. The tests for the segfault and
entry kinds read `ctx->what`, as the source has them. The last branch computes
`ptr` and then runs off the end of the function without a `return`; `undef` is
the value the caller finds in that case. -/
def _check_breakpoint_logic (undef : Nat) (ctx : HeaptraceContext) (ubp : UserBreakpoint)
    (when : UBPWhen) : Except String Nat :=
  if ubp.when ≠ when then Except.ok 0
  else if ubp.what = some UBPWhat.UBP_WHAT_OID then
    Except.ok (if ctx.h_oid = ubp.oid then 1 else 0)
  else if ctx.what = some UBPWhat.UBP_WHAT_SEGFAULT then
    Except.ok (if ctx.h_state = ProcessState.PROCESS_STATE_SEGFAULT then 1 else 0)
  else if ctx.what = some UBPWhat.UBP_WHAT_ENTRY then
    Except.ok (if ctx.h_state = ProcessState.PROCESS_STATE_ENTRY then 1 else 0)
  else if ubp.address = [] then
    Except.error "what=address, but address is NULL"
  else
    match address_sum ubp.address 0 with
    | Except.error e => Except.error e
    | Except.ok _ => Except.ok undef

/-- The body of the `while (cur_ubp)` loop of `check_should_break` for one
breakpoint: the breakpoint afterwards and whether the debugger hand-off was
reached (recorded instead of replacing the process image). `w` is the width in
bits of the counter `h_i`, whose declaration is outside this file. -/
def check_ubp (w undef : Nat) (ctx : HeaptraceContext) (when : UBPWhen)
    (cur_ubp : UserBreakpoint) : Except String (UserBreakpoint × Bool) :=
  match _check_breakpoint_logic undef ctx cur_ubp when with
  | Except.error e => Except.error e
  | Except.ok r =>
    if r ≠ 0 then
      -- `++(cur_ubp->h_i) >= cur_ubp->count`
      let h_i := (cur_ubp.h_i + 1) % 2 ^ w
      Except.ok ({ cur_ubp with h_i := h_i }, decide (h_i ≥ cur_ubp.count))
    else Except.ok (cur_ubp, false)

/-- `check_should_break(ctx, when)` over the registry: the registry afterwards
and, per breakpoint in registry order, whether it fired on this event. -/
def check_should_break (w undef : Nat) (ctx : HeaptraceContext) (when : UBPWhen) :
    List UserBreakpoint → Except String (List UserBreakpoint × List Bool)
  | [] => Except.ok ([], [])
  | cur_ubp :: rest =>
    match check_ubp w undef ctx when cur_ubp with
    | Except.error e => Except.error e
    | Except.ok (ubp1, fired) =>
      match check_should_break w undef ctx when rest with
      | Except.error e => Except.error e
      | Except.ok (rest1, fires) => Except.ok (ubp1 :: rest1, fired :: fires)

/-- One trace event as the evaluator sees it: the context, the phase, and the
value an address-kind check leaves behind. -/
structure TraceEvent where
  ctx : HeaptraceContext
  when : UBPWhen
  undef : Nat
  deriving DecidableEq, Repr

/-- The evaluator called once per event of a sequence: the registry at the
end and the fire record of every event, in order. -/
def run_events (w : Nat) :
    List TraceEvent → List UserBreakpoint → Except String (List UserBreakpoint × List (List Bool))
  | [], reg => Except.ok (reg, [])
  | ev :: evs, reg =>
    match check_should_break w ev.undef ev.ctx ev.when reg with
    | Except.error e => Except.error e
    | Except.ok (reg1, fires) =>
      match run_events w evs reg1 with
      | Except.error e => Except.error e
      | Except.ok (reg2, log) => Except.ok (reg2, fires :: log)

/-! ## The lexer as the spec describes it -/

/-- The identifier token that closes the pending run `run` when the scan is at
index `i`; nothing for an empty run. -/
def flush_run (run : List Char) (i : Nat) : List UserBreakpointToken :=
  if run = [] then []
  else [{ type := UBPTType.UBPT_TYPE_IDENTIFIER, value := run, i := i - run.length }]

/-- The lexer as the spec words it: scanning left to right from index `i` with
the characters `run` of the current identifier pending, a punctuator closes
the run and is itself a one-character token, whitespace closes the run, any
other character extends the run, and the end of input closes the run. -/
def lex_runs : List Char → Nat → List Char → List UserBreakpointToken
  | [], i, run => flush_run run i
  | c :: cs, i, run =>
    if isPunctChar c = true then
      flush_run run i ++
        { type := UBPTType.UBPT_TYPE_PUNCTUATOR, value := [c], i := i } :: lex_runs cs (i + 1) []
    else if isSpaceChar c = true then flush_run run i ++ lex_runs cs (i + 1) []
    else lex_runs cs (i + 1) (run ++ [c])

/-- The head pointer after one more token `t` is created while `chain` is the
chain so far: an identifier sets a null head to the new token, a punctuator
sets it to the previous `cur_token` (null when there is none). -/
def head_step (h : Option Nat) (chain : List UserBreakpointToken) (t : UserBreakpointToken) :
    Option Nat :=
  match h with
  | some k => some k
  | none =>
    if t.type = UBPTType.UBPT_TYPE_IDENTIFIER then some chain.length
    else if chain = [] then none else some (chain.length - 1)

/-- The head pointer after the tokens `ts` are created one after another. -/
def head_fold : Option Nat → List UserBreakpointToken → List UserBreakpointToken → Option Nat
  | h, _, [] => h
  | h, chain, t :: ts => head_fold (head_step h chain t) (chain ++ [t]) ts

/-- The part of the chain `l` that the returned head pointer reaches: the
whole chain when its first token is an identifier; when it is a punctuator,
the head is set only by the second token, to itself if that is an identifier
and to the first token if it is a punctuator. -/
def reachable_tokens : List UserBreakpointToken → List UserBreakpointToken
  | [] => []
  | t1 :: rest =>
    if t1.type = UBPTType.UBPT_TYPE_IDENTIFIER then t1 :: rest
    else
      match rest with
      | [] => []
      | t2 :: _ => if t2.type = UBPTType.UBPT_TYPE_IDENTIFIER then rest else t1 :: rest

/-! ## Sample inputs -/

/-- A traced process with a main binary loaded at `0x400000`, a libc segment,
one static and one dynamic symbol. -/
def sample_ctx : HeaptraceContext :=
  { pme_head := [⟨ProcELFType.PROCELF_TYPE_BINARY, 0x400000⟩,
                 ⟨ProcELFType.PROCELF_TYPE_LIBC, 0x7f0000000000⟩]
    se_head := [⟨"main".toList, SEType.SE_TYPE_STATIC, 0x1139⟩,
                ⟨"puts".toList, SEType.SE_TYPE_DYNAMIC, 0x1030⟩]
    is_dynamic := true
    h_oid := 0
    h_state := ProcessState.PROCESS_STATE_RUNNING
    what := none
    pid := 4242 }

/-! ## The trigger latch as the spec describes it -/

/-- Whether the event `e` matches the breakpoint `b`: the check of `b` on `e`
returns a nonzero value. -/
def matches_event (b : UserBreakpoint) (e : TraceEvent) : Bool :=
  match _check_breakpoint_logic e.undef e.ctx b e.when with
  | Except.ok r => decide (r ≠ 0)
  | Except.error _ => false

/-- The number of events of `evs` that match `b`. -/
def hits (b : UserBreakpoint) (evs : List TraceEvent) : Nat :=
  (evs.filter (matches_event b)).length

/-- What one event does to one breakpoint when its check is defined. -/
def step_ubp (w : Nat) (e : TraceEvent) (u : UserBreakpoint) : UserBreakpoint × Bool :=
  if matches_event u e = true then
    ({ u with h_i := (u.h_i + 1) % 2 ^ w }, decide ((u.h_i + 1) % 2 ^ w ≥ u.count))
  else (u, false)

/-- One breakpoint followed through a sequence of events: the breakpoint at
the end and its fire record. -/
def track (w : Nat) : List TraceEvent → UserBreakpoint → UserBreakpoint × List Bool
  | [], u => (u, [])
  | e :: evs, u =>
    ((track w evs (step_ubp w e u).1).1, (step_ubp w e u).2 :: (track w evs (step_ubp w e u).1).2)

/-- A trace event in phase `Before` at operation id `oid`. -/
def sample_event (oid : Nat) : TraceEvent :=
  { ctx := { sample_ctx with h_oid := oid }, when := UBPWhen.UBP_WHEN_BEFORE, undef := 0 }

/-- Four events: operation ids 0, 5, 0, 0. -/
def sample_events : List TraceEvent :=
  [sample_event 0, sample_event 5, sample_event 0, sample_event 0]

/-- A registry of one operation-id breakpoint with threshold 2, as parsed from
`oid=0:2`. -/
def sample_registry : List UserBreakpoint :=
  [{ name := "oid=0:2".toList, when := UBPWhen.UBP_WHEN_BEFORE,
     what := some UBPWhat.UBP_WHAT_OID, count := 2, oid := 0, h_i := 0,
     address := [⟨UBPAOperation.UBPA_OPERATION_ADD, 0, none⟩] }]

/-! ## Registry: insertion, release, referenced names -/

/-- The walk `while (cur_ubp->next) cur_ubp = cur_ubp->next; cur_ubp->next = ubp;`
of `insert_user_breakpoint` from the node `cur_ubp`, whose `next` chain is
`rest`: the chain from `cur_ubp` after the store. The inserted node `ubp`
brings its own `next` chain `ubp_next`. -/
def insert_walk (ubp : UserBreakpoint) (ubp_next : List UserBreakpoint) :
    UserBreakpoint → List UserBreakpoint → List UserBreakpoint
  | cur_ubp, [] => cur_ubp :: ubp :: ubp_next
  | cur_ubp, next :: rest => cur_ubp :: insert_walk ubp ubp_next next rest

/-- `insert_user_breakpoint(ubp)`: the list hanging off `USER_BREAKPOINT_HEAD`
afterwards. `ubp_next` is the chain behind `ubp->next`, empty for a node fresh
from `create_user_breakpoint`. -/
def insert_user_breakpoint (USER_BREAKPOINT_HEAD : List UserBreakpoint) (ubp : UserBreakpoint)
    (ubp_next : List UserBreakpoint) : List UserBreakpoint :=
  match USER_BREAKPOINT_HEAD with
  | [] => ubp :: ubp_next
  | cur_ubp :: rest => insert_walk ubp ubp_next cur_ubp rest

/-- `free_address_list(ubpa)` run with `fuel` nested calls available: the
number of `free(ubpa->symbol_name)` calls made when it returns, `none` when the
fuel runs out first. The recursive call is `free_address_list(ubpa)`, on the
same pointer. -/
def free_address_list : Nat → List UserBreakpointAddress → Option Nat
  | 0, _ => none
  | _ + 1, [] => some 0 -- `if (!ubpa) return;`
  | fuel + 1, ubpa :: next_operation =>
    (free_address_list fuel (ubpa :: next_operation)).map (fun k => k + 1)

/-- `free_user_breakpoints()` over the registry, each `free_address_list` call
given `fuel`: the number of `free` calls made (term names and breakpoint
names), `none` when a call does not return within its fuel. -/
def free_user_breakpoints (fuel : Nat) : List UserBreakpoint → Option Nat
  | [] => some 0
  | cur_ubp :: rest =>
    match free_address_list fuel cur_ubp.address with
    | none => none
    | some k =>
      match free_user_breakpoints fuel rest with
      | none => none
      | some n => some (k + 1 + n)

/-- The store `se_names[count] = v` into the caller's buffer, seen as the
slots `se_names[0]`, `se_names[1]`, ... -/
def buffer_write (se_names : Nat → Option (List Char)) (count : Nat) (v : List Char) :
    Nat → Option (List Char) :=
  fun k => if k = count then some v else se_names k

/-- The `while (cur_ubpa)` loop of `count_symbol_references`: the running
`count` and the buffer (`none` for a null `se_names`). -/
def count_ubpa_loop :
    List UserBreakpointAddress → Nat → Option (Nat → Option (List Char)) →
      Nat × Option (Nat → Option (List Char))
  | [], count, se_names => (count, se_names)
  | cur_ubpa :: rest, count, se_names =>
    match cur_ubpa.symbol_name with
    | some symbol_name =>
      if _is_reference_constant symbol_name = false then
        count_ubpa_loop rest (count + 1)
          (se_names.map (fun buf => buffer_write buf count symbol_name))
      else count_ubpa_loop rest count se_names
    | none => count_ubpa_loop rest count se_names

/-- The `while (cur_ubp)` loop of `count_symbol_references`. -/
def count_ubp_loop :
    List UserBreakpoint → Nat → Option (Nat → Option (List Char)) →
      Nat × Option (Nat → Option (List Char))
  | [], count, se_names => (count, se_names)
  | cur_ubp :: rest, count, se_names =>
    count_ubp_loop rest (count_ubpa_loop cur_ubp.address count se_names).1
      (count_ubpa_loop cur_ubp.address count se_names).2

/-- `count_symbol_references(se_names)` on the registry: the returned count and
the buffer afterwards. -/
def count_symbol_references (se_names : Option (Nat → Option (List Char)))
    (USER_BREAKPOINT_HEAD : List UserBreakpoint) : Nat × Option (Nat → Option (List Char)) :=
  count_ubp_loop USER_BREAKPOINT_HEAD 0 se_names

/-! ## Referenced names and merged terms as the spec describes them -/

/-- The name a term contributes to the enumeration: its symbol name unless it
is null or a reserved constant. -/
def referenced_name (t : UserBreakpointAddress) : Option (List Char) :=
  match t.symbol_name with
  | some n => if _is_reference_constant n = true then none else some n
  | none => none

/-- The names the registry references, in registry order then term order,
once per referencing term. -/
def referenced_names (reg : List UserBreakpoint) : List (List Char) :=
  reg.flatMap (fun b => b.address.filterMap referenced_name)

/-- Whether a token is an identifier that reads as an unsigned integer. -/
def is_literal (U : Util) (t : UserBreakpointToken) : Bool :=
  decide (t.type ≠ UBPTType.UBPT_TYPE_PUNCTUATOR) && U.is_uint t.value

/-- Whether a token is an identifier that does not read as an unsigned
integer. -/
def is_symbol (U : Util) (t : UserBreakpointToken) : Bool :=
  decide (t.type ≠ UBPTType.UBPT_TYPE_PUNCTUATOR) && !U.is_uint t.value

/-- Whether a token is the punctuator `-`. -/
def is_minus (t : UserBreakpointToken) : Bool :=
  decide (t.type = UBPTType.UBPT_TYPE_PUNCTUATOR) && decide (t.value = "-".toList)

/-- The one term that the tokens `ts` of an expression merge into when the
term `cur` is the starting point: the sign of `cur` toggled once per `-`, the
value of the last literal as address, the text of the last non-literal
identifier as symbol name. -/
def merged_term (U : Util) (cur : UserBreakpointAddress) (ts : List UserBreakpointToken) :
    UserBreakpointAddress :=
  { operation :=
      if (ts.filter is_minus).length % 2 = 0 then cur.operation
      else
        match cur.operation with
        | UBPAOperation.UBPA_OPERATION_ADD => UBPAOperation.UBPA_OPERATION_SUBTRACT
        | UBPAOperation.UBPA_OPERATION_SUBTRACT => UBPAOperation.UBPA_OPERATION_ADD
    address :=
      match (ts.filter (is_literal U)).getLast? with
      | some t => U.str_to_uint64 t.value % 2 ^ 64
      | none => cur.address
    symbol_name :=
      match (ts.filter (is_symbol U)).getLast? with
      | some t => some t.value
      | none => cur.symbol_name }

/-- The buffer after the names `ns` are stored in the slots `count`,
`count + 1`, ... in order. -/
def buffer_fill (se_names : Nat → Option (List Char)) (count : Nat) (ns : List (List Char)) :
    Nat → Option (List Char) :=
  fun k => if count ≤ k ∧ k < count + ns.length then ns[k - count]? else se_names k

deriving instance DecidableEq for Except

/-! # Theorems -/

/-! ## Tokenizer -/

theorem strncpy_run (run rest : List Char) (h : ∀ c ∈ run, isBoundaryChar c = false) :
    strncpy (run ++ rest) run.length = run := by
  unfold strncpy
  rw [List.take_left']
  · rw [List.takeWhile_eq_self_iff]
    intro c hc
    have := h c hc
    simp [isBoundaryChar] at this
    simp [this.1.2]
  · rfl

theorem strncpy_one (c : Char) (cs : List Char) (h : c ≠ '\x00') :
    strncpy (c :: cs) 1 = [c] := by
  have h1 : (c != '\x00') = true := by simpa using h
  simp [strncpy, List.takeWhile, h1]

theorem punct_not_space (c : Char) (h : isPunctChar c = true) : isSpaceChar c = false := by
  simp [isPunctChar] at h
  rcases h with ((h | h) | h) | h <;> subst h <;> decide

theorem boundary_of_punct (c : Char) (h : isPunctChar c = true) : isBoundaryChar c = true := by
  simp [isBoundaryChar, h]

theorem boundary_of_space (c : Char) (h : isSpaceChar c = true) : isBoundaryChar c = true := by
  simp [isBoundaryChar, h]

theorem not_boundary (c : Char) (h0 : c ≠ '\x00') (hp : isPunctChar c = false)
    (hs : isSpaceChar c = false) : isBoundaryChar c = false := by
  simp [isBoundaryChar, hp, hs, h0]

theorem tok_loop_state (breakpoint : List Char) :
    ∀ (rest p0 run : List Char) (i : Nat) (st : TokState),
      breakpoint = p0 ++ run ++ rest →
      i = p0.length + run.length →
      (∀ c ∈ rest, c ≠ '\x00') →
      (∀ c ∈ run, isBoundaryChar c = false) →
      (run = [] → st.in_token = false) →
      (run ≠ [] → st.in_token = true ∧ st.start_ptr = p0.length) →
      (tok_loop breakpoint rest i st).chain = st.chain ++ lex_runs rest i run ∧
      (tok_loop breakpoint rest i st).token_head =
        head_fold st.token_head st.chain (lex_runs rest i run) := by
  intro rest
  induction rest with
  | nil =>
    intro p0 run i st hbp hi _ hrun h0 h1
    obtain ⟨start, intok, chain, head⟩ := st
    rcases run with _ | ⟨r, rs⟩
    · have := h0 rfl
      simp at this
      subst this
      simp [tok_loop, tok_body, lex_runs, flush_run, isSpaceChar, isPunctChar, head_fold]
    · obtain ⟨h1a, h1b⟩ := h1 (by simp)
      simp at h1a h1b
      subst h1a h1b hi
      clear h0 h1
      have hv := strncpy_run (r :: rs) [] hrun
      simp at hv
      cases head <;>
        simp [tok_loop, tok_body, lex_runs, flush_run, isSpaceChar, isPunctChar, isBoundaryChar,
          _create_token, hbp, hv, head_fold, head_step]
  | cons c cs ih =>
    intro p0 run i st hbp hi hnul hrun h0 h1
    obtain ⟨start, intok, chain, head⟩ := st
    have hc0 : c ≠ '\x00' := hnul c (by simp)
    have hnul1 : ∀ d ∈ cs, d ≠ '\x00' := fun d hd => hnul d (by simp [hd])
    have hdrop : breakpoint.drop i = c :: cs := by
      rw [hbp, hi, ← List.length_append, List.drop_left]
    simp only [tok_loop, if_neg hc0]
    rcases run with _ | ⟨r, rs⟩
    · have := h0 rfl
      simp at this hi
      subst this
      clear h0 h1
      by_cases hp : isPunctChar c = true
      · have hs := punct_not_space c hp
        have hb : tok_body breakpoint ⟨start, false, chain, head⟩ i c =
            ⟨i, false, chain ++ [⟨UBPTType.UBPT_TYPE_PUNCTUATOR, [c], i⟩],
              head_step head chain ⟨UBPTType.UBPT_TYPE_PUNCTUATOR, [c], i⟩⟩ := by
          cases head <;>
            simp [tok_body, hp, hs, _create_token, hdrop, strncpy_one c cs hc0, head_step]
        rw [hb]
        obtain ⟨e1, e2⟩ := ih (p0 ++ [c]) [] (i + 1)
          ⟨i, false, chain ++ [⟨UBPTType.UBPT_TYPE_PUNCTUATOR, [c], i⟩],
            head_step head chain ⟨UBPTType.UBPT_TYPE_PUNCTUATOR, [c], i⟩⟩
          (by simp [hbp]) (by simp [hi]) hnul1 (by simp) (by simp) (by simp)
        rw [e1, e2]
        simp [lex_runs, hp, flush_run, head_fold]
      · simp at hp
        by_cases hs : isSpaceChar c = true
        · have hb : tok_body breakpoint ⟨start, false, chain, head⟩ i c =
              ⟨start, false, chain, head⟩ := by
            simp [tok_body, hs]
          rw [hb]
          obtain ⟨e1, e2⟩ := ih (p0 ++ [c]) [] (i + 1) ⟨start, false, chain, head⟩
            (by simp [hbp]) (by simp [hi]) hnul1 (by simp) (by simp) (by simp)
          rw [e1, e2]
          simp [lex_runs, hp, hs, flush_run]
        · simp at hs
          have hb : tok_body breakpoint ⟨start, false, chain, head⟩ i c =
              ⟨i, true, chain, head⟩ := by
            simp [tok_body, hs, hp]
          rw [hb]
          obtain ⟨e1, e2⟩ := ih p0 [c] (i + 1) ⟨i, true, chain, head⟩
            (by simp [hbp]) (by simp [hi]) hnul1
            (by simpa using not_boundary c hc0 hp hs) (by simp) (by simp [hi])
          rw [e1, e2]
          simp [lex_runs, hp, hs]
    · obtain ⟨h1a, h1b⟩ := h1 (by simp)
      simp at h1a h1b
      subst h1a h1b
      clear h0 h1
      have hne : p0.length ≠ i := by simp [hi]
      have hsub : i - p0.length = (r :: rs).length := by simp [hi]
      have hdrop0 : breakpoint.drop p0.length = (r :: rs) ++ c :: cs := by
        rw [hbp, List.append_assoc, List.drop_left]
      have hv := strncpy_run (r :: rs) (c :: cs) hrun
      by_cases hp : isPunctChar c = true
      · have hs := punct_not_space c hp
        have hb : tok_body breakpoint ⟨p0.length, true, chain, head⟩ i c =
            ⟨i, false, chain ++ [⟨UBPTType.UBPT_TYPE_IDENTIFIER, r :: rs, p0.length⟩,
                ⟨UBPTType.UBPT_TYPE_PUNCTUATOR, [c], i⟩],
              head_step (head_step head chain ⟨UBPTType.UBPT_TYPE_IDENTIFIER, r :: rs, p0.length⟩)
                (chain ++ [⟨UBPTType.UBPT_TYPE_IDENTIFIER, r :: rs, p0.length⟩]) ⟨UBPTType.UBPT_TYPE_PUNCTUATOR, [c], i⟩⟩ := by
          cases head <;>
            simp [tok_body, hp, hs, _create_token, hdrop, strncpy_one c cs hc0, hne,
              boundary_of_punct c hp, hsub, hdrop0, hv, head_step] <;>
            exact ⟨by simpa using hv, by simp [hi]⟩
        rw [hb]
        obtain ⟨e1, e2⟩ := ih (p0 ++ (r :: rs) ++ [c]) [] (i + 1)
          ⟨i, false, chain ++ [⟨UBPTType.UBPT_TYPE_IDENTIFIER, r :: rs, p0.length⟩,
              ⟨UBPTType.UBPT_TYPE_PUNCTUATOR, [c], i⟩],
            head_step (head_step head chain ⟨UBPTType.UBPT_TYPE_IDENTIFIER, r :: rs, p0.length⟩)
              (chain ++ [⟨UBPTType.UBPT_TYPE_IDENTIFIER, r :: rs, p0.length⟩]) ⟨UBPTType.UBPT_TYPE_PUNCTUATOR, [c], i⟩⟩
          (by simp [hbp]) (by simp [hi]; omega) hnul1 (by simp) (by simp) (by simp)
        rw [e1, e2]
        simp [lex_runs, hp, flush_run, hi, head_fold]
      · simp at hp
        by_cases hs : isSpaceChar c = true
        · have hb : tok_body breakpoint ⟨p0.length, true, chain, head⟩ i c =
              ⟨i, false, chain ++ [⟨UBPTType.UBPT_TYPE_IDENTIFIER, r :: rs, p0.length⟩],
                head_step head chain ⟨UBPTType.UBPT_TYPE_IDENTIFIER, r :: rs, p0.length⟩⟩ := by
            cases head <;>
              simp [tok_body, hp, hs, _create_token, hne,
                boundary_of_space c hs, hsub, hdrop0, hv, head_step] <;>
              exact ⟨by simpa using hv, by simp [hi]⟩
          rw [hb]
          obtain ⟨e1, e2⟩ := ih (p0 ++ (r :: rs) ++ [c]) [] (i + 1)
            ⟨i, false, chain ++ [⟨UBPTType.UBPT_TYPE_IDENTIFIER, r :: rs, p0.length⟩],
              head_step head chain ⟨UBPTType.UBPT_TYPE_IDENTIFIER, r :: rs, p0.length⟩⟩
            (by simp [hbp]) (by simp [hi]; omega) hnul1 (by simp) (by simp) (by simp)
          rw [e1, e2]
          simp [lex_runs, hp, hs, flush_run, hi, head_fold]
        · simp at hs
          have hb : tok_body breakpoint ⟨p0.length, true, chain, head⟩ i c =
              ⟨p0.length, true, chain, head⟩ := by
            simp [tok_body, hs, hp, not_boundary c hc0 hp hs]
          rw [hb]
          obtain ⟨e1, e2⟩ := ih p0 (r :: rs ++ [c]) (i + 1) ⟨p0.length, true, chain, head⟩
            (by simp [hbp]) (by simp [hi]; omega) hnul1
            (by
              intro d hd
              simp at hd
              rcases hd with hd | hd | hd
              · exact hrun d (by simp [hd])
              · exact hrun d (by simp [hd])
              · subst hd; exact not_boundary d hc0 hp hs)
            (by simp) (by simp)
          rw [e1, e2]
          simp [lex_runs, hp, hs]

theorem head_fold_some (k : Nat) (ts : List UserBreakpointToken) :
    ∀ chain, head_fold (some k) chain ts = some k := by
  induction ts with
  | nil => intro chain; rfl
  | cons t ts ih => intro chain; simp [head_fold, head_step, ih]

theorem tok_result_head_fold (l : List UserBreakpointToken) (start : Nat) (b : Bool) :
    tok_result ⟨start, b, l, head_fold none [] l⟩ = reachable_tokens l := by
  rcases l with _ | ⟨t1, rest⟩
  · simp [tok_result, head_fold, reachable_tokens]
  · by_cases h1 : t1.type = UBPTType.UBPT_TYPE_IDENTIFIER
    · simp [tok_result, head_fold, head_step, h1, head_fold_some, reachable_tokens]
    · rcases rest with _ | ⟨t2, rest2⟩
      · simp [tok_result, head_fold, head_step, h1, reachable_tokens]
      · by_cases h2 : t2.type = UBPTType.UBPT_TYPE_IDENTIFIER
        · simp [tok_result, head_fold, head_step, h1, h2, head_fold_some, reachable_tokens]
        · simp [tok_result, head_fold, head_step, h1, h2, head_fold_some, reachable_tokens]

/-- The tokenizer on a NUL-free input: the tokens of the spec's lexer, as far
as the returned head pointer reaches them. -/
theorem tokenize_eq (s : List Char) (h : ∀ c ∈ s, c ≠ '\x00') :
    tokenize_user_breakpoint_str s = reachable_tokens (lex_runs s 0 []) := by
  obtain ⟨e1, e2⟩ := tok_loop_state s s [] [] 0 tok_init (by simp) (by simp) h (by simp)
    (by simp [tok_init]) (by simp)
  simp only [tok_init, List.nil_append] at e1 e2
  unfold tokenize_user_breakpoint_str tok_init
  generalize tok_loop s s 0 ⟨0, false, [], none⟩ = st at e1 e2
  obtain ⟨start, b, chain, head⟩ := st
  simp only at e1 e2
  rw [e1, e2]
  exact tok_result_head_fold _ _ _

theorem lex_runs_pending (rest : List Char) :
    ∀ (i : Nat) (run : List Char), run ≠ [] →
      ∃ t ts, lex_runs rest i run = t :: ts ∧ t.type = UBPTType.UBPT_TYPE_IDENTIFIER := by
  induction rest with
  | nil =>
    intro i run h
    exact ⟨⟨UBPTType.UBPT_TYPE_IDENTIFIER, run, i - run.length⟩, [],
      by simp [lex_runs, flush_run, h], rfl⟩
  | cons c cs ih =>
    intro i run h
    by_cases hp : isPunctChar c = true
    · exact ⟨⟨UBPTType.UBPT_TYPE_IDENTIFIER, run, i - run.length⟩, _,
        by simp [lex_runs, hp, flush_run, h]; rfl, rfl⟩
    · by_cases hs : isSpaceChar c = true
      · exact ⟨⟨UBPTType.UBPT_TYPE_IDENTIFIER, run, i - run.length⟩, _,
          by simp [lex_runs, hp, hs, flush_run, h]; rfl, rfl⟩
      · obtain ⟨t, ts, e, ht⟩ := ih (i + 1) (run ++ [c]) (by simp)
        exact ⟨t, ts, by simp [lex_runs, hp, hs, e], ht⟩

theorem reachable_lex_runs (s : List Char) :
    ∀ (i : Nat), (∀ c, (s.dropWhile isSpaceChar).head? = some c → isPunctChar c = false) →
      reachable_tokens (lex_runs s i []) = lex_runs s i [] := by
  induction s with
  | nil => intro i _; simp [lex_runs, flush_run, reachable_tokens]
  | cons c cs ih =>
    intro i h
    by_cases hs : isSpaceChar c = true
    · have hp : isPunctChar c = false := by
        cases hpc : isPunctChar c
        · rfl
        · rw [punct_not_space c hpc] at hs; cases hs
      have := ih (i + 1) (by simpa [List.dropWhile, hs] using h)
      simpa [lex_runs, hp, hs, flush_run] using this
    · have hp : isPunctChar c = false := h c (by simp [List.dropWhile, hs])
      obtain ⟨t, ts, e, ht⟩ := lex_runs_pending cs (i + 1) [c] (by simp)
      simp [lex_runs, hp, hs, e, reachable_tokens, ht]

/-- The maximal-run reading of `lex_runs`: a non-empty run of non-boundary
characters that is followed by a boundary character or by the end of the
input is one identifier token holding exactly that run. -/
theorem lex_runs_maximal_run (run rest : List Char) (i : Nat) (hne : run ≠ [])
    (hrun : ∀ c ∈ run, isPunctChar c = false ∧ isSpaceChar c = false)
    (hrest : ∀ c, rest.head? = some c → isPunctChar c = true ∨ isSpaceChar c = true) :
    lex_runs (run ++ rest) i [] =
      { type := UBPTType.UBPT_TYPE_IDENTIFIER, value := run, i := i } ::
        lex_runs rest (i + run.length) [] := by
  have key : ∀ (r2 pend : List Char) (j : Nat),
      (∀ c ∈ r2, isPunctChar c = false ∧ isSpaceChar c = false) →
      lex_runs (r2 ++ rest) j pend = lex_runs rest (j + r2.length) (pend ++ r2) := by
    intro r2
    induction r2 with
    | nil => intro pend j _; simp
    | cons c cs ih =>
      intro pend j h
      have hc := h c (by simp)
      have := ih (pend ++ [c]) (j + 1) (fun d hd => h d (by simp [hd]))
      simp [lex_runs, hc.1, hc.2, this]
      congr 1
      omega
  rw [key run [] i hrun]
  rcases rest with _ | ⟨c, cs⟩
  · simp [lex_runs, flush_run, hne]
  · rcases hrest c rfl with hp | hs
    · simp [lex_runs, hp, flush_run, hne]
    · have hp : isPunctChar c = false := by
        cases hpc : isPunctChar c
        · rfl
        · rw [punct_not_space c hpc] at hs; cases hs
      simp [lex_runs, hp, hs, flush_run, hne]

theorem lex_runs_wf (rest : List Char) :
    ∀ (i : Nat) (run : List Char),
      (∀ c ∈ run, isPunctChar c = false ∧ isSpaceChar c = false) →
      ∀ t ∈ lex_runs rest i run,
        (t.type = UBPTType.UBPT_TYPE_IDENTIFIER ∧ t.value ≠ [] ∧
          ∀ c ∈ t.value, isPunctChar c = false ∧ isSpaceChar c = false) ∨
        (t.type = UBPTType.UBPT_TYPE_PUNCTUATOR ∧ ∃ c, t.value = [c] ∧ isPunctChar c = true) := by
  have hflush : ∀ (i : Nat) (run : List Char),
      (∀ c ∈ run, isPunctChar c = false ∧ isSpaceChar c = false) →
      ∀ t ∈ flush_run run i,
        (t.type = UBPTType.UBPT_TYPE_IDENTIFIER ∧ t.value ≠ [] ∧
          ∀ c ∈ t.value, isPunctChar c = false ∧ isSpaceChar c = false) := by
    intro i run hrun t ht
    unfold flush_run at ht
    split at ht
    · simp at ht
    · simp at ht
      subst ht
      exact ⟨rfl, by assumption, hrun⟩
  induction rest with
  | nil =>
    intro i run hrun t ht
    exact Or.inl (hflush i run hrun t (by simpa [lex_runs] using ht))
  | cons c cs ih =>
    intro i run hrun t ht
    by_cases hp : isPunctChar c = true
    · simp only [lex_runs, hp, if_true, List.mem_append, List.mem_cons] at ht
      rcases ht with ht | ht | ht
      · exact Or.inl (hflush i run hrun t ht)
      · subst ht
        exact Or.inr ⟨rfl, c, rfl, hp⟩
      · exact ih (i + 1) [] (by simp) t ht
    · by_cases hs : isSpaceChar c = true
      · rw [lex_runs, if_neg hp, if_pos hs, List.mem_append] at ht
        rcases ht with ht | ht
        · exact Or.inl (hflush i run hrun t ht)
        · exact ih (i + 1) [] (by simp) t ht
      · rw [lex_runs, if_neg hp, if_neg hs] at ht
        refine ih (i + 1) (run ++ [c]) ?_ t ht
        intro d hd
        simp at hd
        rcases hd with hd | hd
        · exact hrun d hd
        · subst hd
          exact ⟨by simpa using hp, by simpa using hs⟩

theorem lex_runs_punct_count (rest : List Char) :
    ∀ (i : Nat) (run : List Char),
      ((lex_runs rest i run).filter
          (fun t => decide (t.type = UBPTType.UBPT_TYPE_PUNCTUATOR))).length =
        (rest.filter isPunctChar).length := by
  have hflush : ∀ (i : Nat) (run : List Char),
      (flush_run run i).filter (fun t => decide (t.type = UBPTType.UBPT_TYPE_PUNCTUATOR)) = [] := by
    intro i run
    unfold flush_run
    split <;> simp
  induction rest with
  | nil => intro i run; simp [lex_runs, hflush]
  | cons c cs ih =>
    intro i run
    by_cases hp : isPunctChar c = true
    · simp [lex_runs, hp, hflush, ih]
    · by_cases hs : isSpaceChar c = true
      · simp [lex_runs, hp, hs, hflush, ih]
      · simp [lex_runs, hp, hs, ih]

/-! ## Claims about the tokenizer -/

/-- C7: on a NUL-free input whose first non-whitespace character is not one of
`: + - =`, `tokenize_user_breakpoint_str` returns exactly the tokens of the
spec's lexer `lex_runs`: in source order one identifier per maximal run of
non-boundary characters and one one-character punctuator per `: + - =`.
Every returned token is either an identifier holding a non-empty run without
punctuator or whitespace characters, or a punctuator holding one of
`: + - =`; there are as many punctuator tokens as punctuator characters; and
`addr=main+4` gives `addr`, `=`, `main`, `+`, `4`. -/
theorem tokenize_identifier_first (s : List Char) (hnul : ∀ c ∈ s, c ≠ '\x00')
    (hfirst : ∀ c, (s.dropWhile isSpaceChar).head? = some c → isPunctChar c = false) :
    tokenize_user_breakpoint_str s = lex_runs s 0 [] ∧
    (∀ t ∈ tokenize_user_breakpoint_str s,
      (t.type = UBPTType.UBPT_TYPE_IDENTIFIER ∧ t.value ≠ [] ∧
        ∀ c ∈ t.value, isPunctChar c = false ∧ isSpaceChar c = false) ∨
      (t.type = UBPTType.UBPT_TYPE_PUNCTUATOR ∧ ∃ c, t.value = [c] ∧ isPunctChar c = true)) ∧
    ((tokenize_user_breakpoint_str s).filter
        (fun t => decide (t.type = UBPTType.UBPT_TYPE_PUNCTUATOR))).length =
      (s.filter isPunctChar).length ∧
    tokenize_user_breakpoint_str "addr=main+4".toList =
      [⟨UBPTType.UBPT_TYPE_IDENTIFIER, "addr".toList, 0⟩,
       ⟨UBPTType.UBPT_TYPE_PUNCTUATOR, "=".toList, 4⟩,
       ⟨UBPTType.UBPT_TYPE_IDENTIFIER, "main".toList, 5⟩,
       ⟨UBPTType.UBPT_TYPE_PUNCTUATOR, "+".toList, 9⟩,
       ⟨UBPTType.UBPT_TYPE_IDENTIFIER, "4".toList, 10⟩] := by
  have e : tokenize_user_breakpoint_str s = lex_runs s 0 [] := by
    rw [tokenize_eq s hnul, reachable_lex_runs s 0 hfirst]
  refine ⟨e, ?_, ?_, by decide⟩
  · rw [e]
    exact lex_runs_wf s 0 [] (by simp)
  · rw [e]
    exact lex_runs_punct_count s 0 []

/-- C7 (witness): the hypotheses hold for `  a b=c`, which lexes to `a`, `b`,
`=`, `c`. -/
theorem tokenize_identifier_first_witness :
    tokenize_user_breakpoint_str "  a b=c".toList =
      [⟨UBPTType.UBPT_TYPE_IDENTIFIER, "a".toList, 2⟩,
       ⟨UBPTType.UBPT_TYPE_IDENTIFIER, "b".toList, 4⟩,
       ⟨UBPTType.UBPT_TYPE_PUNCTUATOR, "=".toList, 5⟩,
       ⟨UBPTType.UBPT_TYPE_IDENTIFIER, "c".toList, 6⟩] ∧
    lex_runs "  a b=c".toList 0 [] =
      [⟨UBPTType.UBPT_TYPE_IDENTIFIER, "a".toList, 2⟩,
       ⟨UBPTType.UBPT_TYPE_IDENTIFIER, "b".toList, 4⟩,
       ⟨UBPTType.UBPT_TYPE_PUNCTUATOR, "=".toList, 5⟩,
       ⟨UBPTType.UBPT_TYPE_IDENTIFIER, "c".toList, 6⟩] := by
  have h := (tokenize_identifier_first "  a b=c".toList (by decide) (by decide)).1
  exact ⟨by rw [h]; decide, by decide⟩

/-- C8: a punctuator that is the first token of the input is not in the
returned sequence. For every punctuator character `p` and every identifier
`x`, the input `p x` gives only the identifier `x` and the input `p` alone
gives no token at all: the returned sequence holds no punctuator token
although the input holds one punctuator character. -/
theorem tokenize_leading_punctuator_dropped (p : Char) (x : List Char)
    (hp : isPunctChar p = true) (hx : x ≠ [])
    (hx' : ∀ c ∈ x, c ≠ '\x00' ∧ isPunctChar c = false ∧ isSpaceChar c = false) :
    tokenize_user_breakpoint_str (p :: x) = [⟨UBPTType.UBPT_TYPE_IDENTIFIER, x, 1⟩] ∧
    tokenize_user_breakpoint_str [p] = [] ∧
    ((tokenize_user_breakpoint_str (p :: x)).filter
        (fun t => decide (t.type = UBPTType.UBPT_TYPE_PUNCTUATOR))).length = 0 ∧
    ((p :: x).filter isPunctChar).length = 1 := by
  have hp0 : p ≠ '\x00' := by
    intro h
    subst h
    revert hp
    decide
  have hnul : ∀ c ∈ p :: x, c ≠ '\x00' := by
    intro c hc
    simp at hc
    rcases hc with hc | hc
    · subst hc; exact hp0
    · exact (hx' c hc).1
  have hrun := lex_runs_maximal_run x [] 1 hx (fun c hc => (hx' c hc).2) (by simp)
  simp only [List.append_nil, lex_runs, flush_run, if_true] at hrun
  have e1 : tokenize_user_breakpoint_str (p :: x) = [⟨UBPTType.UBPT_TYPE_IDENTIFIER, x, 1⟩] := by
    rw [tokenize_eq _ hnul]
    simp [lex_runs, hp, flush_run, hrun, reachable_tokens]
  have e2 : tokenize_user_breakpoint_str [p] = [] := by
    rw [tokenize_eq _ (by simpa using hp0)]
    simp [lex_runs, hp, flush_run, reachable_tokens]
  refine ⟨e1, e2, by simp [e1], ?_⟩
  have hx0 : x.filter isPunctChar = [] := by
    rw [List.filter_eq_nil_iff]
    intro c hc
    simp [(hx' c hc).2.1]
  simp [List.filter, hp, hx0]

/-- C8 (witness): `-x` gives only the identifier `x`, `-` alone gives
nothing. -/
theorem tokenize_leading_punctuator_dropped_witness :
    tokenize_user_breakpoint_str "-x".toList =
      [⟨UBPTType.UBPT_TYPE_IDENTIFIER, "x".toList, 1⟩] ∧
    tokenize_user_breakpoint_str "-".toList = [] ∧
    ((tokenize_user_breakpoint_str "-x".toList).filter
        (fun t => decide (t.type = UBPTType.UBPT_TYPE_PUNCTUATOR))).length = 0 ∧
    ("-x".toList.filter isPunctChar).length = 1 :=
  tokenize_leading_punctuator_dropped '-' "x".toList (by decide) (by decide) (by decide)

/-! ## Claims about the parser -/

theorem action_count_oid (U : Util) (ubp b : UserBreakpoint) (ts : List UserBreakpointToken)
    (h : action_count U ubp ts = Except.ok b) :
    b.oid = ubp.oid ∧ b.what = ubp.what ∧ b.when = ubp.when := by
  rcases ts with _ | ⟨t, ts⟩
  · simp [action_count] at h
    subst h
    simp
  · simp only [action_count] at h
    split at h
    · cases h
    · cases h
      simp

theorem action_address_oid (U : Util) (ubp b : UserBreakpoint) (ts : List UserBreakpointToken)
    (h : action_address U ubp ts = Except.ok b) :
    b.oid = ubp.oid ∧ b.what = ubp.what ∧ b.when = ubp.when := by
  rcases ts with _ | ⟨t, ts⟩
  · simp [action_address] at h
    subst h
    simp
  · simp only [action_address] at h
    split at h
    · cases h
    · have := action_count_oid U _ b _ h
      simpa using this

theorem expect_address_oid (U : Util) (ubp b : UserBreakpoint) (ts : List UserBreakpointToken)
    (h : expect_address U ubp ts = Except.ok b) :
    b.oid = ubp.oid ∧ b.what = ubp.what ∧ b.when = ubp.when := by
  simp only [expect_address] at h
  split at h
  · cases h
  · split at h
    · cases h
    · split at h
      · cases h
      · split at h
        · cases h
        · have := action_address_oid U _ b _ h
          simpa using this

theorem action_what_oid (U : Util) (ubp b : UserBreakpoint) (ts : List UserBreakpointToken)
    (h : action_what U ubp ts = Except.ok b) : b.oid = ubp.oid ∧ b.when = ubp.when := by
  rcases ts with _ | ⟨t, ts⟩
  · simp [action_what] at h
    subst h
    simp
  · simp only [action_what] at h
    split at h
    · cases h
    · split at h
      · have := expect_address_oid U _ b _ h
        exact ⟨by simpa using this.1, by simpa using this.2.2⟩
      · split at h
        · have := expect_address_oid U _ b _ h
          exact ⟨by simpa using this.1, by simpa using this.2.2⟩
        · split at h
          · cases h; simp
          · split at h
            · cases h; simp
            · cases h

/-- C1: for `addr=main+0x10` the parser returns an address breakpoint whose
expression is the single term `(Add, address 16, symbol "main")`: the literal
after the `+` is written into the term that already carries the symbol, and no
second term is started. -/
theorem create_user_breakpoint_main_plus_0x10 (U : Util)
    (hmain : U.is_uint "main".toList = false) (h10 : U.is_uint "0x10".toList = true)
    (hval : U.str_to_uint64 "0x10".toList = 16) :
    create_user_breakpoint U "addr=main+0x10".toList =
      Except.ok
        { name := "addr=main+0x10".toList, when := UBPWhen.UBP_WHEN_BEFORE,
          what := some UBPWhat.UBP_WHAT_ADDRESS, count := 1, oid := 0, h_i := 0,
          address := [{ operation := UBPAOperation.UBPA_OPERATION_ADD, address := 16,
                        symbol_name := some "main".toList }] } := by
  have htok : tokenize_user_breakpoint_str "addr=main+0x10".toList =
      [⟨.UBPT_TYPE_IDENTIFIER, "addr".toList, 0⟩, ⟨.UBPT_TYPE_PUNCTUATOR, "=".toList, 4⟩,
       ⟨.UBPT_TYPE_IDENTIFIER, "main".toList, 5⟩, ⟨.UBPT_TYPE_PUNCTUATOR, "+".toList, 9⟩,
       ⟨.UBPT_TYPE_IDENTIFIER, "0x10".toList, 10⟩] := by decide
  rw [create_user_breakpoint, htok]
  simp only [String.toList] at hmain h10 hval ⊢
  simp [action_what, expect_address, GET, action_address,
    _parse_token_expression, parse_expression_loop, NEXT, action_count, new_ubp, new_ubpa,
    hmain, h10, hval]

/-- C1 (witness): the reading `specUtil` of the integer helpers meets the
hypotheses. -/
theorem create_user_breakpoint_main_plus_0x10_witness :
    create_user_breakpoint specUtil "addr=main+0x10".toList =
      Except.ok
        { name := "addr=main+0x10".toList, when := UBPWhen.UBP_WHEN_BEFORE,
          what := some UBPWhat.UBP_WHAT_ADDRESS, count := 1, oid := 0, h_i := 0,
          address := [{ operation := UBPAOperation.UBPA_OPERATION_ADD, address := 16,
                        symbol_name := some "main".toList }] } :=
  create_user_breakpoint_main_plus_0x10 specUtil (by decide) (by decide) (by decide)

/-- C3: no path of the parser writes the field `oid`: every breakpoint that
`create_user_breakpoint` returns has `oid = 0`, and for kind `OperationId` the
evaluator therefore reports a match exactly on operation id 0, whatever number
the specification gave. -/
theorem create_user_breakpoint_oid_unset (U : Util) (name : List Char) (b : UserBreakpoint)
    (h : create_user_breakpoint U name = Except.ok b) :
    b.oid = 0 ∧
    (b.what = some UBPWhat.UBP_WHAT_OID → ∀ (undef : Nat) (ctx : HeaptraceContext),
      _check_breakpoint_logic undef ctx b UBPWhen.UBP_WHEN_BEFORE =
        Except.ok (if ctx.h_oid = 0 then 1 else 0)) := by
  have h1 := action_what_oid U _ b _ h
  have ho : b.oid = 0 := by simpa [new_ubp] using h1.1
  have hw : b.when = UBPWhen.UBP_WHEN_BEFORE := by simpa [new_ubp] using h1.2
  refine ⟨ho, ?_⟩
  intro hk undef ctx
  simp [_check_breakpoint_logic, hw, hk, ho]

/-- C3 (witness): `oid=7` parses to kind `OperationId` with the 7 in the
address term and `oid = 0`; the evaluator matches it on operation id 0. -/
theorem create_user_breakpoint_oid_unset_witness :
    create_user_breakpoint specUtil "oid=7".toList =
      Except.ok
        { name := "oid=7".toList, when := UBPWhen.UBP_WHEN_BEFORE,
          what := some UBPWhat.UBP_WHAT_OID, count := 1, oid := 0, h_i := 0,
          address := [{ operation := UBPAOperation.UBPA_OPERATION_ADD, address := 7,
                        symbol_name := none }] } ∧
    _check_breakpoint_logic 0 { sample_ctx with h_oid := 7 }
        { name := "oid=7".toList, when := UBPWhen.UBP_WHEN_BEFORE,
          what := some UBPWhat.UBP_WHAT_OID, count := 1, oid := 0, h_i := 0,
          address := [{ operation := UBPAOperation.UBPA_OPERATION_ADD, address := 7,
                        symbol_name := none }] } UBPWhen.UBP_WHEN_BEFORE = Except.ok 0 :=
  ⟨by decide,
   (create_user_breakpoint_oid_unset specUtil "oid=7".toList _ (by decide)).2 rfl 0
     { sample_ctx with h_oid := 7 }⟩

theorem lex_runs_append_punct (a : List Char) (c : Char) (b : List Char)
    (hc : isPunctChar c = true) :
    ∀ (i : Nat) (run : List Char),
      lex_runs (a ++ c :: b) i run =
        lex_runs a i run ++
          { type := UBPTType.UBPT_TYPE_PUNCTUATOR, value := [c], i := i + a.length } ::
            lex_runs b (i + a.length + 1) [] := by
  induction a with
  | nil => intro i run; simp [lex_runs, hc]
  | cons d ds ih =>
    intro i run
    have e1 : i + 1 + ds.length = i + (ds.length + 1) := by omega
    by_cases hp : isPunctChar d = true
    · simp [lex_runs, hp, ih, e1]
    · by_cases hs : isSpaceChar d = true
      · simp [lex_runs, hp, hs, ih, e1]
      · simp [lex_runs, hp, hs, ih, e1]

theorem lex_runs_punct_mem (rest : List Char) :
    ∀ (i : Nat) (run : List Char), ∀ t ∈ lex_runs rest i run,
      t.type = UBPTType.UBPT_TYPE_PUNCTUATOR → ∃ c ∈ rest, t.value = [c] := by
  have hflush : ∀ (i : Nat) (run : List Char), ∀ t ∈ flush_run run i,
      t.type = UBPTType.UBPT_TYPE_IDENTIFIER := by
    intro i run t ht
    unfold flush_run at ht
    split at ht
    · simp at ht
    · simp at ht
      subst ht
      rfl
  induction rest with
  | nil =>
    intro i run t ht hp
    have := hflush i run t (by simpa [lex_runs] using ht)
    rw [this] at hp
    cases hp
  | cons c cs ih =>
    intro i run t ht hpt
    by_cases hp : isPunctChar c = true
    · simp only [lex_runs, hp, if_true, List.mem_append, List.mem_cons] at ht
      rcases ht with ht | ht | ht
      · have := hflush i run t ht
        rw [this] at hpt
        cases hpt
      · subst ht
        exact ⟨c, by simp, rfl⟩
      · obtain ⟨d, hd, hv⟩ := ih (i + 1) [] t ht hpt
        exact ⟨d, by simp [hd], hv⟩
    · by_cases hs : isSpaceChar c = true
      · rw [lex_runs, if_neg hp, if_pos hs, List.mem_append] at ht
        rcases ht with ht | ht
        · have := hflush i run t ht
          rw [this] at hpt
          cases hpt
        · obtain ⟨d, hd, hv⟩ := ih (i + 1) [] t ht hpt
          exact ⟨d, by simp [hd], hv⟩
      · rw [lex_runs, if_neg hp, if_neg hs] at ht
        obtain ⟨d, hd, hv⟩ := ih (i + 1) (run ++ [c]) t ht hpt
        exact ⟨d, by simp [hd], hv⟩

theorem reachable_tokens_sublist (l : List UserBreakpointToken) :
    ∀ t ∈ reachable_tokens l, t ∈ l := by
  intro t ht
  rcases l with _ | ⟨t1, rest⟩
  · simp [reachable_tokens] at ht
  · simp only [reachable_tokens] at ht
    split at ht
    · exact ht
    · rcases rest with _ | ⟨t2, r2⟩
      · simp at ht
      · simp only at ht
        split at ht
        · exact List.mem_cons_of_mem _ ht
        · exact ht

theorem reachable_tokens_append (l x : List UserBreakpointToken)
    (h : reachable_tokens l ≠ []) :
    reachable_tokens (l ++ x) = reachable_tokens l ++ x := by
  rcases l with _ | ⟨t1, rest⟩
  · simp [reachable_tokens] at h
  · by_cases h1 : t1.type = UBPTType.UBPT_TYPE_IDENTIFIER
    · simp [reachable_tokens, h1]
    · rcases rest with _ | ⟨t2, r2⟩
      · simp [reachable_tokens, h1] at h
      · by_cases h2 : t2.type = UBPTType.UBPT_TYPE_IDENTIFIER
        · simp [reachable_tokens, h1, h2]
        · simp [reachable_tokens, h1, h2]

/-- Appending `:` and an identifier `n` to a NUL-free input appends the two
tokens `:` and `n` to its token sequence, as long as that sequence is not
empty. -/
theorem tokenize_append_colon (s n : List Char) (hs : ∀ c ∈ s, c ≠ '\x00') (hn : n ≠ [])
    (hn' : ∀ c ∈ n, c ≠ '\x00' ∧ isPunctChar c = false ∧ isSpaceChar c = false)
    (hne : tokenize_user_breakpoint_str s ≠ []) :
    tokenize_user_breakpoint_str (s ++ ':' :: n) =
      tokenize_user_breakpoint_str s ++
        [⟨UBPTType.UBPT_TYPE_PUNCTUATOR, [':'], s.length⟩,
         ⟨UBPTType.UBPT_TYPE_IDENTIFIER, n, s.length + 1⟩] := by
  have hs' : ∀ c ∈ s ++ ':' :: n, c ≠ '\x00' := by
    intro c hc
    simp at hc
    rcases hc with hc | hc | hc
    · exact hs c hc
    · subst hc; decide
    · exact (hn' c hc).1
  rw [tokenize_eq _ hs', tokenize_eq _ hs] at *
  rw [lex_runs_append_punct s ':' n (by decide) 0 []]
  have hn2 := lex_runs_maximal_run n [] (0 + s.length + 1) hn
    (fun c hc => (hn' c hc).2) (by simp)
  simp only [List.append_nil] at hn2
  rw [hn2]
  simp only [lex_runs, flush_run, if_true]
  rw [reachable_tokens_append _ _ hne]
  simp

theorem parse_expression_loop_extend (U : Util) (colon nt : UserBreakpointToken)
    (hc : colon.type = UBPTType.UBPT_TYPE_PUNCTUATOR) (hcv : colon.value = ":".toList) :
    ∀ (es : List UserBreakpointToken) (cur : UserBreakpointAddress)
      (terms : List UserBreakpointAddress) (ret : List UserBreakpointToken),
      es ≠ [] →
      (∀ t ∈ es, t.type = UBPTType.UBPT_TYPE_PUNCTUATOR → t.value ≠ ":".toList) →
      parse_expression_loop U es [] cur = Except.ok (terms, ret) →
      ret = [] ∧
        parse_expression_loop U (es ++ [colon, nt]) [] cur = Except.ok (terms, [colon, nt]) := by
  have hcv' : colon.value = [':'] := by simpa using hcv
  intro es
  induction es with
  | nil => intro cur terms ret h; exact absurd rfl h
  | cons t rest ih =>
    intro cur terms ret _ hno h
    have hno' : ∀ t ∈ rest, t.type = UBPTType.UBPT_TYPE_PUNCTUATOR → t.value ≠ ":".toList :=
      fun u hu => hno u (by simp [hu])
    by_cases ht : t.type = UBPTType.UBPT_TYPE_PUNCTUATOR
    · have hcolon : ¬ t.value = [':'] := by simpa using hno t (by simp) ht
      by_cases hp : t.value = ['+']
      · by_cases hr : rest = []
        · simp [parse_expression_loop, ht, hp, NEXT, hr] at h
        · simp [parse_expression_loop, ht, hp, NEXT, hr] at h
          obtain ⟨e1, e2⟩ := ih cur terms ret hr hno' h
          refine ⟨e1, ?_⟩
          simpa [parse_expression_loop, ht, hp, NEXT] using e2
      · by_cases hm : t.value = ['-']
        · by_cases hr : rest = []
          · simp [parse_expression_loop, ht, hp, hm, NEXT, hr] at h
          · simp [parse_expression_loop, ht, hp, hm, NEXT, hr] at h
            obtain ⟨e1, e2⟩ := ih _ terms ret hr hno' h
            refine ⟨e1, ?_⟩
            simpa [parse_expression_loop, ht, hp, hm, NEXT] using e2
        · simp [parse_expression_loop, ht, hp, hm, hcolon] at h
    · by_cases hr : rest = []
      · subst hr
        simp [parse_expression_loop, ht] at h
        obtain ⟨h1, h2⟩ := h
        subst h1 h2
        simp [parse_expression_loop, ht, hc, hcv']
      · simp [parse_expression_loop, ht, hr] at h
        obtain ⟨e1, e2⟩ := ih _ terms ret hr hno' h
        refine ⟨e1, ?_⟩
        simpa [parse_expression_loop, ht, hr] using e2

theorem action_address_append_count (U : Util) (colon nt : UserBreakpointToken)
    (hc : colon.type = UBPTType.UBPT_TYPE_PUNCTUATOR) (hcv : colon.value = ":".toList)
    (hnt : nt.type = UBPTType.UBPT_TYPE_IDENTIFIER)
    (ubp b : UserBreakpoint) (ts : List UserBreakpointToken) (hts : ts ≠ [])
    (hno : ∀ t ∈ ts, t.type = UBPTType.UBPT_TYPE_PUNCTUATOR → t.value ≠ ":".toList)
    (h : action_address U ubp ts = Except.ok b) :
    action_address U ubp (ts ++ [colon, nt]) =
      Except.ok { b with count := U.str_to_uint64 nt.value % 2 ^ 64 } := by
  rcases ts with _ | ⟨t, r⟩
  · exact absurd rfl hts
  · simp only [action_address, _parse_token_expression] at h
    rw [if_neg (by simp)] at h
    cases hp : parse_expression_loop U (t :: r) [] new_ubpa with
    | error e => rw [hp] at h; cases h
    | ok res =>
      obtain ⟨terms, ret⟩ := res
      rw [hp] at h
      obtain ⟨e1, e2⟩ := parse_expression_loop_extend U colon nt hc hcv (t :: r) new_ubpa terms
        ret (by simp) hno hp
      subst e1
      simp [NEXT, action_count] at h
      subst h
      simp only [List.cons_append, action_address, _parse_token_expression]
      rw [if_neg (by simp)]
      simp only [List.cons_append] at e2
      rw [e2]
      simp [NEXT, action_count, hnt]

theorem expect_address_append_count (U : Util) (colon nt : UserBreakpointToken)
    (hc : colon.type = UBPTType.UBPT_TYPE_PUNCTUATOR) (hcv : colon.value = ":".toList)
    (hnt : nt.type = UBPTType.UBPT_TYPE_IDENTIFIER)
    (ubp b : UserBreakpoint) (ts : List UserBreakpointToken)
    (hno : ∀ t ∈ ts, t.type = UBPTType.UBPT_TYPE_PUNCTUATOR → t.value ≠ ":".toList)
    (h : expect_address U ubp ts = Except.ok b) :
    expect_address U ubp (ts ++ [colon, nt]) =
      Except.ok { b with count := U.str_to_uint64 nt.value % 2 ^ 64 } := by
  rcases ts with _ | ⟨w, _ | ⟨eq, _ | ⟨e1, es⟩⟩⟩
  · simp [expect_address, GET] at h
  · simp [expect_address, GET] at h
  · simp only [expect_address, GET, List.tail_cons] at h
    simp at h
    split at h <;> simp at h
  · simp only [expect_address, GET, List.tail_cons] at h
    simp at h
    split at h
    · cases h
    · rename_i heq
      have := action_address_append_count U colon nt hc hcv hnt ubp b (e1 :: es) (by simp)
        (fun t ht => hno t (by simp at ht ⊢; tauto)) h
      simp only [List.cons_append, expect_address, GET, List.tail_cons]
      simp
      rw [if_neg heq]
      simpa using this

theorem action_what_append_count (U : Util) (colon nt : UserBreakpointToken)
    (hc : colon.type = UBPTType.UBPT_TYPE_PUNCTUATOR) (hcv : colon.value = ":".toList)
    (hnt : nt.type = UBPTType.UBPT_TYPE_IDENTIFIER)
    (ubp b : UserBreakpoint) (ts : List UserBreakpointToken) (hw0 : ubp.what = none)
    (hno : ∀ t ∈ ts, t.type = UBPTType.UBPT_TYPE_PUNCTUATOR → t.value ≠ ":".toList)
    (h : action_what U ubp ts = Except.ok b)
    (hk : b.what = some UBPWhat.UBP_WHAT_ADDRESS ∨ b.what = some UBPWhat.UBP_WHAT_OID) :
    action_what U ubp (ts ++ [colon, nt]) =
      Except.ok { b with count := U.str_to_uint64 nt.value % 2 ^ 64 } := by
  rcases ts with _ | ⟨w, rest⟩
  · simp [action_what] at h
    subst h
    rw [hw0] at hk
    simp at hk
  · simp only [action_what] at h
    simp only [List.cons_append, action_what]
    split at h
    · cases h
    · rename_i h0
      rw [if_neg h0]
      split at h
      · rename_i h1
        rw [if_pos h1]
        exact expect_address_append_count U colon nt hc hcv hnt _ b (w :: rest) hno h
      · rename_i h1
        rw [if_neg h1]
        split at h
        · rename_i h2
          rw [if_pos h2]
          exact expect_address_append_count U colon nt hc hcv hnt _ b (w :: rest) hno h
        · split at h
          · cases h
            simp at hk
          · split at h
            · cases h
              simp at hk
            · cases h

theorem action_count_rename (U : Util) (n0 nm : List Char) (w0 : UBPWhen) (k0 : Option UBPWhat) (c0 o0 h0 : Nat)
    (a0 : List UserBreakpointAddress)
    (ts : List UserBreakpointToken) :
    action_count U ⟨nm, w0, k0, c0, o0, h0, a0⟩ ts =
      (action_count U ⟨n0, w0, k0, c0, o0, h0, a0⟩ ts).map (fun b => { b with name := nm }) := by
  rcases ts with _ | ⟨t, ts⟩
  · simp [action_count, Except.map]
  · simp only [action_count]
    split <;> simp [Except.map]

theorem action_address_rename (U : Util) (n0 nm : List Char) (w0 : UBPWhen) (k0 : Option UBPWhat) (c0 o0 h0 : Nat)
    (a0 : List UserBreakpointAddress)
    (ts : List UserBreakpointToken) :
    action_address U ⟨nm, w0, k0, c0, o0, h0, a0⟩ ts =
      (action_address U ⟨n0, w0, k0, c0, o0, h0, a0⟩ ts).map (fun b => { b with name := nm }) := by
  rcases ts with _ | ⟨t, ts⟩
  · simp [action_address, Except.map]
  · simp only [action_address]
    split
    · simp [Except.map]
    · exact action_count_rename U n0 nm _ _ _ _ _ _ _

theorem expect_address_rename (U : Util) (n0 nm : List Char) (w0 : UBPWhen) (k0 : Option UBPWhat) (c0 o0 h0 : Nat)
    (a0 : List UserBreakpointAddress)
    (ts : List UserBreakpointToken) :
    expect_address U ⟨nm, w0, k0, c0, o0, h0, a0⟩ ts =
      (expect_address U ⟨n0, w0, k0, c0, o0, h0, a0⟩ ts).map (fun b => { b with name := nm }) := by
  simp only [expect_address]
  split
  · simp [Except.map]
  · split
    · simp [Except.map]
    · split
      · simp [Except.map]
      · split
        · simp [Except.map]
        · exact action_address_rename U n0 nm _ _ _ _ _ _ _

theorem action_what_rename (U : Util) (n0 nm : List Char) (w0 : UBPWhen) (k0 : Option UBPWhat) (c0 o0 h0 : Nat)
    (a0 : List UserBreakpointAddress)
    (ts : List UserBreakpointToken) :
    action_what U ⟨nm, w0, k0, c0, o0, h0, a0⟩ ts =
      (action_what U ⟨n0, w0, k0, c0, o0, h0, a0⟩ ts).map (fun b => { b with name := nm }) := by
  rcases ts with _ | ⟨t, ts⟩
  · simp [action_what, Except.map]
  · simp only [action_what]
    split
    · simp [Except.map]
    · split
      · exact expect_address_rename U n0 nm _ _ _ _ _ _ _
      · split
        · exact expect_address_rename U n0 nm _ _ _ _ _ _ _
        · split
          · simp [Except.map]
          · split <;> simp [Except.map]

/-- C2 (counterexample): for `addr=main+0x10 3` the count stays 1 whatever the
integer helpers do, and the trailing `3` is read as part of the expression:
it overwrites the 16 in the term's address. -/
theorem count_after_whitespace_ignored :
    (∀ U : Util, ∃ b, create_user_breakpoint U "addr=main+0x10 3".toList = Except.ok b ∧
      b.count = 1) ∧
    create_user_breakpoint specUtil "addr=main+0x10 3".toList =
      Except.ok
        { name := "addr=main+0x10 3".toList, when := UBPWhen.UBP_WHEN_BEFORE,
          what := some UBPWhat.UBP_WHAT_ADDRESS, count := 1, oid := 0, h_i := 0,
          address := [{ operation := UBPAOperation.UBPA_OPERATION_ADD, address := 3,
                        symbol_name := some "main".toList }] } ∧
    create_user_breakpoint specUtil "addr=main+0x10".toList =
      Except.ok
        { name := "addr=main+0x10".toList, when := UBPWhen.UBP_WHEN_BEFORE,
          what := some UBPWhat.UBP_WHAT_ADDRESS, count := 1, oid := 0, h_i := 0,
          address := [{ operation := UBPAOperation.UBPA_OPERATION_ADD, address := 16,
                        symbol_name := some "main".toList }] } := by
  refine ⟨?_, by decide, by decide⟩
  intro U
  have htok : tokenize_user_breakpoint_str "addr=main+0x10 3".toList =
      [⟨.UBPT_TYPE_IDENTIFIER, "addr".toList, 0⟩, ⟨.UBPT_TYPE_PUNCTUATOR, "=".toList, 4⟩,
       ⟨.UBPT_TYPE_IDENTIFIER, "main".toList, 5⟩, ⟨.UBPT_TYPE_PUNCTUATOR, "+".toList, 9⟩,
       ⟨.UBPT_TYPE_IDENTIFIER, "0x10".toList, 10⟩,
       ⟨.UBPT_TYPE_IDENTIFIER, "3".toList, 15⟩] := by decide
  rw [create_user_breakpoint, htok]
  simp [action_what, expect_address, GET, action_address,
    _parse_token_expression, parse_expression_loop, NEXT, action_count, new_ubp, new_ubpa]

/-- C2 (amended): the count is introduced by `:`. For every NUL-free
specification `s` without a `:` that parses to an address or operation-id
breakpoint `b`, and every identifier `n`, the specification `s:n` parses to the
same breakpoint (same kind, same address expression) with `count` set to the
value `str_to_uint64` gives `n`. -/
theorem count_after_colon (U : Util) (s n : List Char) (b : UserBreakpoint)
    (hs : ∀ c ∈ s, c ≠ '\x00' ∧ c ≠ ':') (hn : n ≠ [])
    (hn' : ∀ c ∈ n, c ≠ '\x00' ∧ isPunctChar c = false ∧ isSpaceChar c = false)
    (hb : create_user_breakpoint U s = Except.ok b)
    (hk : b.what = some UBPWhat.UBP_WHAT_ADDRESS ∨ b.what = some UBPWhat.UBP_WHAT_OID) :
    create_user_breakpoint U (s ++ ':' :: n) =
      Except.ok { b with name := s ++ ':' :: n, count := U.str_to_uint64 n % 2 ^ 64 } := by
  have hs0 : ∀ c ∈ s, c ≠ '\x00' := fun c hc => (hs c hc).1
  unfold create_user_breakpoint at hb ⊢
  have hne : tokenize_user_breakpoint_str s ≠ [] := by
    intro h0
    rw [h0] at hb
    simp [action_what, new_ubp] at hb
    subst hb
    simp at hk
  have hno : ∀ t ∈ tokenize_user_breakpoint_str s,
      t.type = UBPTType.UBPT_TYPE_PUNCTUATOR → t.value ≠ ":".toList := by
    intro t ht hp
    rw [tokenize_eq s hs0] at ht
    obtain ⟨c, hc, hv⟩ := lex_runs_punct_mem s 0 [] t (reachable_tokens_sublist _ t ht) hp
    rw [hv]
    have := (hs c hc).2
    simpa using this
  rw [tokenize_append_colon s n hs0 hn hn' hne]
  have h1 := action_what_append_count U ⟨UBPTType.UBPT_TYPE_PUNCTUATOR, [':'], s.length⟩
    ⟨UBPTType.UBPT_TYPE_IDENTIFIER, n, s.length + 1⟩ rfl rfl rfl (new_ubp s) b
    (tokenize_user_breakpoint_str s) rfl hno hb hk
  have h2 := action_what_rename U s (s ++ ':' :: n) UBPWhen.UBP_WHEN_BEFORE none 1 0 0 []
    (tokenize_user_breakpoint_str s ++
      [⟨UBPTType.UBPT_TYPE_PUNCTUATOR, [':'], s.length⟩,
       ⟨UBPTType.UBPT_TYPE_IDENTIFIER, n, s.length + 1⟩])
  unfold new_ubp at h1 ⊢
  rw [h2, h1]
  rfl

/-- C2 (witness): `addr=main+0x10:3` has the expression of `addr=main+0x10`
and count 3. -/
theorem count_after_colon_witness :
    create_user_breakpoint specUtil "addr=main+0x10:3".toList =
      Except.ok
        { name := "addr=main+0x10:3".toList, when := UBPWhen.UBP_WHEN_BEFORE,
          what := some UBPWhat.UBP_WHAT_ADDRESS, count := 3, oid := 0, h_i := 0,
          address := [{ operation := UBPAOperation.UBPA_OPERATION_ADD, address := 16,
                        symbol_name := some "main".toList }] } :=
  count_after_colon specUtil "addr=main+0x10".toList "3".toList
    { name := "addr=main+0x10".toList, when := UBPWhen.UBP_WHEN_BEFORE,
      what := some UBPWhat.UBP_WHAT_ADDRESS, count := 1, oid := 0, h_i := 0,
      address := [{ operation := UBPAOperation.UBPA_OPERATION_ADD, address := 16,
                    symbol_name := some "main".toList }] }
    (by decide) (by decide) (by decide) (by decide) (by decide)

/-! ## Claims about symbol resolution -/

theorem fill_symbol_references_eq (ctx : HeaptraceContext) (reg : List UserBreakpoint)
    (bin_pme : ProcMapsEntry)
    (h : pme_walk ctx.pme_head ProcELFType.PROCELF_TYPE_BINARY = some bin_pme) :
    fill_symbol_references ctx reg =
      Except.ok (reg.map (fill_ubp bin_pme.base ctx.se_head)) := by
  simp [fill_symbol_references, h]

theorem fill_term_at (bin_base : Nat) (se_head : List SymbolEntry) (reg : List UserBreakpoint)
    (i j : Nat) (ubp : UserBreakpoint) (t : UserBreakpointAddress)
    (hi : reg[i]? = some ubp) (hj : ubp.address[j]? = some t) :
    (reg.map (fill_ubp bin_base se_head))[i]? = some (fill_ubp bin_base se_head ubp) ∧
    (fill_ubp bin_base se_head ubp).address[j]? = some (fill_ubpa bin_base se_head t) := by
  simp [List.getElem?_map, hi, hj, fill_ubp]

theorem se_loop_find (bin_base : Nat) (t : UserBreakpointAddress) (n : List Char)
    (se_head : List SymbolEntry) :
    se_loop bin_base t n se_head =
      (se_head.find? (fun e => decide (e.name = n))).map
        (fun se =>
          if se.type ≠ SEType.SE_TYPE_STATIC then { t with symbol_name := none }
          else { t with symbol_name := none, address := (bin_base + se.offset) % 2 ^ 64 }) := by
  induction se_head with
  | nil => simp [se_loop]
  | cons e es ih =>
    by_cases h : n = e.name
    · by_cases hst : e.type = SEType.SE_TYPE_STATIC <;> simp [se_loop, h, hst]
    · have h' : ¬ e.name = n := fun x => h x.symm
      simp [se_loop, h, h', List.find?, ih]

theorem address_sum_unresolved (l : List UserBreakpointAddress) :
    ∀ (ptr : Nat), (∃ t ∈ l, t.symbol_name ≠ none) →
      address_sum l ptr = Except.error "unable to check user breakpoint; symbol not resolved" := by
  induction l with
  | nil => intro ptr h; simp at h
  | cons a as ih =>
    intro ptr h
    cases hs : a.symbol_name with
    | some n => simp [address_sum, hs]
    | none =>
      have h' : ∃ t ∈ as, t.symbol_name ≠ none := by
        obtain ⟨t, ht, hne⟩ := h
        simp at ht
        rcases ht with ht | ht
        · subst ht; exact absurd hs hne
        · exact ⟨t, ht, hne⟩
      cases ho : a.operation <;> simp [address_sum, hs, ho, ih _ h']

/-- C9: a term whose name is not a reserved constant and whose first match in
the symbol table is a static symbol is resolved by `fill_symbol_references`:
the pass succeeds, the term's `symbol_name` becomes null and its address
becomes `(binary base + symbol offset) mod 2^64`. -/
theorem fill_static_symbol (ctx : HeaptraceContext) (reg : List UserBreakpoint)
    (bin_pme : ProcMapsEntry) (i j : Nat) (ubp : UserBreakpoint) (t : UserBreakpointAddress)
    (n : List Char) (se : SymbolEntry)
    (hpme : pme_walk ctx.pme_head ProcELFType.PROCELF_TYPE_BINARY = some bin_pme)
    (hi : reg[i]? = some ubp) (hj : ubp.address[j]? = some t)
    (hn : t.symbol_name = some n) (hr : _is_reference_constant n = false)
    (hfind : ctx.se_head.find? (fun e => decide (e.name = n)) = some se)
    (hst : se.type = SEType.SE_TYPE_STATIC) :
    ∃ reg' ubp' t', fill_symbol_references ctx reg = Except.ok reg' ∧
      reg'[i]? = some ubp' ∧ ubp'.address[j]? = some t' ∧
      t'.symbol_name = none ∧ t'.address = (bin_pme.base + se.offset) % 2 ^ 64 ∧
      t'.operation = t.operation := by
  obtain ⟨h1, h2⟩ := fill_term_at bin_pme.base ctx.se_head reg i j ubp t hi hj
  refine ⟨_, _, _, fill_symbol_references_eq ctx reg bin_pme hpme, h1, h2, ?_⟩
  simp [fill_ubpa, hn, hr, se_loop_find, hfind, hst]

/-- C9 (witness): with `main` a static symbol at offset `0x1139` and the binary
at `0x400000`, the term of `addr=main` resolves to `0x401139`. -/
theorem fill_static_symbol_witness :
    ∃ reg' ubp' t',
      fill_symbol_references sample_ctx
        [{ name := "addr=main".toList, when := UBPWhen.UBP_WHEN_BEFORE,
           what := some UBPWhat.UBP_WHAT_ADDRESS, count := 1, oid := 0, h_i := 0,
           address := [⟨UBPAOperation.UBPA_OPERATION_ADD, 0, some "main".toList⟩] }] =
        Except.ok reg' ∧
      reg'[0]? = some ubp' ∧ ubp'.address[0]? = some t' ∧
      t'.symbol_name = none ∧ t'.address = (0x400000 + 0x1139) % 2 ^ 64 ∧
      t'.operation = UBPAOperation.UBPA_OPERATION_ADD :=
  fill_static_symbol sample_ctx _ ⟨ProcELFType.PROCELF_TYPE_BINARY, 0x400000⟩ 0 0 _
    ⟨UBPAOperation.UBPA_OPERATION_ADD, 0, some "main".toList⟩ "main".toList
    ⟨"main".toList, SEType.SE_TYPE_STATIC, 0x1139⟩ (by decide) rfl rfl rfl (by decide)
    (by decide) rfl

/-- C4: `fill_symbol_references` does not resolve the reserved constants. The
breakpoints parsed from `addr=bin` and `addr=libc` come back from the pass as
they went in: their terms still carry the names `bin` and `libc` and still
have address 0, although the segment map has the binary at `0x400000` and the
libc segment at `0x7f0000000000`. -/
theorem fill_bin_not_base :
    pme_walk sample_ctx.pme_head ProcELFType.PROCELF_TYPE_BINARY =
      some ⟨ProcELFType.PROCELF_TYPE_BINARY, 0x400000⟩ ∧
    pme_walk sample_ctx.pme_head ProcELFType.PROCELF_TYPE_LIBC =
      some ⟨ProcELFType.PROCELF_TYPE_LIBC, 0x7f0000000000⟩ ∧
    create_user_breakpoint specUtil "addr=bin".toList =
      Except.ok
        { name := "addr=bin".toList, when := UBPWhen.UBP_WHEN_BEFORE,
          what := some UBPWhat.UBP_WHAT_ADDRESS, count := 1, oid := 0, h_i := 0,
          address := [⟨UBPAOperation.UBPA_OPERATION_ADD, 0, some "bin".toList⟩] } ∧
    fill_symbol_references sample_ctx
        [{ name := "addr=bin".toList, when := UBPWhen.UBP_WHEN_BEFORE,
           what := some UBPWhat.UBP_WHAT_ADDRESS, count := 1, oid := 0, h_i := 0,
           address := [⟨UBPAOperation.UBPA_OPERATION_ADD, 0, some "bin".toList⟩] },
         { name := "addr=libc".toList, when := UBPWhen.UBP_WHEN_BEFORE,
           what := some UBPWhat.UBP_WHAT_ADDRESS, count := 1, oid := 0, h_i := 0,
           address := [⟨UBPAOperation.UBPA_OPERATION_ADD, 0, some "libc".toList⟩] }] =
      Except.ok
        [{ name := "addr=bin".toList, when := UBPWhen.UBP_WHEN_BEFORE,
           what := some UBPWhat.UBP_WHAT_ADDRESS, count := 1, oid := 0, h_i := 0,
           address := [⟨UBPAOperation.UBPA_OPERATION_ADD, 0, some "bin".toList⟩] },
         { name := "addr=libc".toList, when := UBPWhen.UBP_WHEN_BEFORE,
           what := some UBPWhat.UBP_WHAT_ADDRESS, count := 1, oid := 0, h_i := 0,
           address := [⟨UBPAOperation.UBPA_OPERATION_ADD, 0, some "libc".toList⟩] }] := by
  decide

/-- C5: a term named by a reserved constant is still unresolved after
`fill_symbol_references`: the pass succeeds and leaves the term as it was, its
`symbol_name` set, and an address-kind check of that breakpoint then stops in
the evaluator's assertion that the symbol is resolved. -/
theorem fill_leaves_reference_constant (ctx : HeaptraceContext) (reg : List UserBreakpoint)
    (bin_pme : ProcMapsEntry) (i j : Nat) (ubp : UserBreakpoint) (t : UserBreakpointAddress)
    (n : List Char)
    (hpme : pme_walk ctx.pme_head ProcELFType.PROCELF_TYPE_BINARY = some bin_pme)
    (hi : reg[i]? = some ubp) (hj : ubp.address[j]? = some t)
    (hn : t.symbol_name = some n) (hr : _is_reference_constant n = true) :
    ∃ reg' ubp', fill_symbol_references ctx reg = Except.ok reg' ∧
      reg'[i]? = some ubp' ∧ ubp'.address[j]? = some t ∧
      ∀ (undef : Nat) (ev : HeaptraceContext),
        ubp'.what ≠ some UBPWhat.UBP_WHAT_OID →
        ev.what ≠ some UBPWhat.UBP_WHAT_SEGFAULT → ev.what ≠ some UBPWhat.UBP_WHAT_ENTRY →
        _check_breakpoint_logic undef ev ubp' ubp'.when =
          Except.error "unable to check user breakpoint; symbol not resolved" := by
  obtain ⟨h1, h2⟩ := fill_term_at bin_pme.base ctx.se_head reg i j ubp t hi hj
  have ht : fill_ubpa bin_pme.base ctx.se_head t = t := by
    simp [fill_ubpa, hn, hr]
  rw [ht] at h2
  refine ⟨_, _, fill_symbol_references_eq ctx reg bin_pme hpme, h1, h2, ?_⟩
  intro undef ev hk h3 h4
  have hmem : t ∈ (fill_ubp bin_pme.base ctx.se_head ubp).address := List.mem_iff_getElem?.mpr ⟨j, h2⟩
  have hne : (fill_ubp bin_pme.base ctx.se_head ubp).address ≠ [] := List.ne_nil_of_mem hmem
  have hsum := address_sum_unresolved _ 0 ⟨t, hmem, by simp [hn]⟩
  simp [_check_breakpoint_logic, hk, h3, h4, hne, hsum]

/-- C5 (witness): the breakpoint parsed from `addr=bin` keeps its term
`(Add, 0, "bin")` through the pass, and checking it fails the assertion. -/
theorem fill_leaves_reference_constant_witness :
    create_user_breakpoint specUtil "addr=bin".toList =
      Except.ok
        { name := "addr=bin".toList, when := UBPWhen.UBP_WHEN_BEFORE,
          what := some UBPWhat.UBP_WHAT_ADDRESS, count := 1, oid := 0, h_i := 0,
          address := [⟨UBPAOperation.UBPA_OPERATION_ADD, 0, some "bin".toList⟩] } ∧
    ∃ reg' ubp',
      fill_symbol_references sample_ctx
        [{ name := "addr=bin".toList, when := UBPWhen.UBP_WHEN_BEFORE,
           what := some UBPWhat.UBP_WHAT_ADDRESS, count := 1, oid := 0, h_i := 0,
           address := [⟨UBPAOperation.UBPA_OPERATION_ADD, 0, some "bin".toList⟩] }] =
        Except.ok reg' ∧
      reg'[0]? = some ubp' ∧
      ubp'.address[0]? = some ⟨UBPAOperation.UBPA_OPERATION_ADD, 0, some "bin".toList⟩ ∧
      ∀ (undef : Nat) (ev : HeaptraceContext),
        ubp'.what ≠ some UBPWhat.UBP_WHAT_OID →
        ev.what ≠ some UBPWhat.UBP_WHAT_SEGFAULT → ev.what ≠ some UBPWhat.UBP_WHAT_ENTRY →
        _check_breakpoint_logic undef ev ubp' ubp'.when =
          Except.error "unable to check user breakpoint; symbol not resolved" :=
  ⟨by decide,
   fill_leaves_reference_constant sample_ctx _ ⟨ProcELFType.PROCELF_TYPE_BINARY, 0x400000⟩ 0 0 _
     ⟨UBPAOperation.UBPA_OPERATION_ADD, 0, some "bin".toList⟩ "bin".toList (by decide) rfl rfl
     rfl (by decide)⟩

/-- C10: for `addr=0x10+foo` with `foo` absent from the symbol table, the term
that carried `foo` comes out of `fill_symbol_references` resolved but with
address 16, not 0: the parser had put the literal into the same term, and the
not-resolved branch clears the name without writing the address. -/
theorem fill_unknown_symbol_keeps_literal (U : Util) (ctx : HeaptraceContext)
    (bin_pme : ProcMapsEntry)
    (h10 : U.is_uint "0x10".toList = true) (hval : U.str_to_uint64 "0x10".toList = 16)
    (hfoo : U.is_uint "foo".toList = false)
    (hpme : pme_walk ctx.pme_head ProcELFType.PROCELF_TYPE_BINARY = some bin_pme)
    (habs : ∀ e ∈ ctx.se_head, e.name ≠ "foo".toList) :
    create_user_breakpoint U "addr=0x10+foo".toList =
      Except.ok
        { name := "addr=0x10+foo".toList, when := UBPWhen.UBP_WHEN_BEFORE,
          what := some UBPWhat.UBP_WHAT_ADDRESS, count := 1, oid := 0, h_i := 0,
          address := [⟨UBPAOperation.UBPA_OPERATION_ADD, 16, some "foo".toList⟩] } ∧
    fill_symbol_references ctx
        [{ name := "addr=0x10+foo".toList, when := UBPWhen.UBP_WHEN_BEFORE,
           what := some UBPWhat.UBP_WHAT_ADDRESS, count := 1, oid := 0, h_i := 0,
           address := [⟨UBPAOperation.UBPA_OPERATION_ADD, 16, some "foo".toList⟩] }] =
      Except.ok
        [{ name := "addr=0x10+foo".toList, when := UBPWhen.UBP_WHEN_BEFORE,
           what := some UBPWhat.UBP_WHAT_ADDRESS, count := 1, oid := 0, h_i := 0,
           address := [⟨UBPAOperation.UBPA_OPERATION_ADD, 16, none⟩] }] := by
  constructor
  · have htok : tokenize_user_breakpoint_str "addr=0x10+foo".toList =
        [⟨.UBPT_TYPE_IDENTIFIER, "addr".toList, 0⟩, ⟨.UBPT_TYPE_PUNCTUATOR, "=".toList, 4⟩,
         ⟨.UBPT_TYPE_IDENTIFIER, "0x10".toList, 5⟩, ⟨.UBPT_TYPE_PUNCTUATOR, "+".toList, 9⟩,
         ⟨.UBPT_TYPE_IDENTIFIER, "foo".toList, 10⟩] := by decide
    rw [create_user_breakpoint, htok]
    simp only [String.toList] at h10 hval hfoo ⊢
    simp [action_what, expect_address, GET, action_address,
      _parse_token_expression, parse_expression_loop, NEXT, action_count, new_ubp, new_ubpa,
      h10, hval, hfoo]
  · rw [fill_symbol_references_eq ctx _ bin_pme hpme]
    have hnone : ctx.se_head.find? (fun e => decide (e.name = "foo".toList)) = none := by
      rw [List.find?_eq_none]
      intro e he
      simpa using habs e he
    have hrc : _is_reference_constant "foo".toList = false := by decide
    simp only [String.toList] at hnone hrc ⊢
    simp [fill_ubp, fill_ubpa, hrc, se_loop_find, hnone]

/-- C10 (witness): `specUtil` and `sample_ctx`, whose symbol table has no
`foo`, meet the hypotheses. -/
theorem fill_unknown_symbol_keeps_literal_witness :
    create_user_breakpoint specUtil "addr=0x10+foo".toList =
      Except.ok
        { name := "addr=0x10+foo".toList, when := UBPWhen.UBP_WHEN_BEFORE,
          what := some UBPWhat.UBP_WHAT_ADDRESS, count := 1, oid := 0, h_i := 0,
          address := [⟨UBPAOperation.UBPA_OPERATION_ADD, 16, some "foo".toList⟩] } ∧
    fill_symbol_references sample_ctx
        [{ name := "addr=0x10+foo".toList, when := UBPWhen.UBP_WHEN_BEFORE,
           what := some UBPWhat.UBP_WHAT_ADDRESS, count := 1, oid := 0, h_i := 0,
           address := [⟨UBPAOperation.UBPA_OPERATION_ADD, 16, some "foo".toList⟩] }] =
      Except.ok
        [{ name := "addr=0x10+foo".toList, when := UBPWhen.UBP_WHEN_BEFORE,
           what := some UBPWhat.UBP_WHAT_ADDRESS, count := 1, oid := 0, h_i := 0,
           address := [⟨UBPAOperation.UBPA_OPERATION_ADD, 16, none⟩] }] :=
  fill_unknown_symbol_keeps_literal specUtil sample_ctx
    ⟨ProcELFType.PROCELF_TYPE_BINARY, 0x400000⟩ (by decide) (by decide) (by decide) (by decide)
    (by decide)

/-! ## Claims about the trigger evaluator -/

theorem matches_event_h_i (u : UserBreakpoint) (x : Nat) (e : TraceEvent) :
    matches_event { u with h_i := x } e = matches_event u e := rfl

theorem step_ubp_fst (w : Nat) (e : TraceEvent) (u : UserBreakpoint) :
    (step_ubp w e u).1 = { u with h_i := (step_ubp w e u).1.h_i } := by
  unfold step_ubp
  split <;> rfl

theorem check_ubp_defined (w : Nat) (e : TraceEvent) (u : UserBreakpoint)
    (h : ∃ r, _check_breakpoint_logic e.undef e.ctx u e.when = Except.ok r) :
    check_ubp w e.undef e.ctx e.when u = Except.ok (step_ubp w e u) := by
  obtain ⟨r, hr⟩ := h
  by_cases h0 : r = 0
  · simp [check_ubp, step_ubp, matches_event, hr, h0]
  · simp [check_ubp, step_ubp, matches_event, hr, h0]

theorem check_should_break_defined (w : Nat) (e : TraceEvent) (reg : List UserBreakpoint)
    (h : ∀ u ∈ reg, ∃ r, _check_breakpoint_logic e.undef e.ctx u e.when = Except.ok r) :
    check_should_break w e.undef e.ctx e.when reg =
      Except.ok (reg.map (fun u => (step_ubp w e u).1), reg.map (fun u => (step_ubp w e u).2)) := by
  induction reg with
  | nil => rfl
  | cons u us ih =>
    have hu := check_ubp_defined w e u (h u (by simp))
    have hus := ih (fun v hv => h v (by simp [hv]))
    simp [check_should_break, hu, hus]

theorem run_events_track (w : Nat) (evs : List TraceEvent) :
    ∀ (reg : List UserBreakpoint),
      (∀ e ∈ evs, ∀ u ∈ reg, ∃ r, _check_breakpoint_logic e.undef e.ctx u e.when = Except.ok r) →
      ∃ reg' log, run_events w evs reg = Except.ok (reg', log) ∧
        log.length = evs.length ∧
        ∀ (i : Nat) (u : UserBreakpoint), reg[i]? = some u →
          reg'[i]? = some (track w evs u).1 ∧
          ∀ k, k < evs.length → ∃ fires, log[k]? = some fires ∧
            fires[i]? = (track w evs u).2[k]? := by
  induction evs with
  | nil =>
    intro reg _
    exact ⟨reg, [], rfl, rfl, fun i u hi => ⟨by simpa [track] using hi, fun k hk => by simp at hk⟩⟩
  | cons e evs ih =>
    intro reg hdef
    have h1 := check_should_break_defined w e reg (hdef e (by simp))
    have hdef' : ∀ e' ∈ evs, ∀ u ∈ reg.map (fun u => (step_ubp w e u).1),
        ∃ r, _check_breakpoint_logic e'.undef e'.ctx u e'.when = Except.ok r := by
      intro e' he' u hu
      simp only [List.mem_map] at hu
      obtain ⟨v, hv, rfl⟩ := hu
      obtain ⟨r, hr⟩ := hdef e' (by simp [he']) v hv
      refine ⟨r, ?_⟩
      rw [step_ubp_fst]
      exact hr
    obtain ⟨reg', log, h2, h3, h4⟩ := ih _ hdef'
    refine ⟨reg', reg.map (fun u => (step_ubp w e u).2) :: log, ?_, by simp [h3], ?_⟩
    · simp [run_events, h1, h2]
    · intro i u hi
      have hi' : (reg.map (fun u => (step_ubp w e u).1))[i]? = some (step_ubp w e u).1 := by
        simp [List.getElem?_map, hi]
      obtain ⟨h5, h6⟩ := h4 i _ hi'
      refine ⟨by simpa [track] using h5, ?_⟩
      intro k hk
      rcases k with _ | k
      · exact ⟨reg.map (fun u => (step_ubp w e u).2), by simp,
          by simp [track, List.getElem?_map, hi]⟩
      · obtain ⟨fires, hf1, hf2⟩ := h6 k (by simpa using hk)
        exact ⟨fires, by simpa using hf1, by simpa [track] using hf2⟩

theorem track_spec (w : Nat) (evs : List TraceEvent) :
    ∀ (u : UserBreakpoint), u.h_i + hits u evs < 2 ^ w →
      (track w evs u).1 = { u with h_i := u.h_i + hits u evs } ∧
      ∀ k e, evs[k]? = some e →
        (track w evs u).2[k]? =
          some (matches_event u e && decide (u.count ≤ u.h_i + hits u (evs.take (k + 1)))) := by
  induction evs with
  | nil =>
    intro u _
    exact ⟨by simp [track, hits], fun k e hk => by simp at hk⟩
  | cons e evs ih =>
    intro u hw
    by_cases hm : matches_event u e = true
    · have hh : hits u (e :: evs) = hits u evs + 1 := by simp [hits, hm]
      have hlt : u.h_i + 1 < 2 ^ w := by omega
      have hs : step_ubp w e u = ({ u with h_i := u.h_i + 1 }, decide (u.h_i + 1 ≥ u.count)) := by
        simp [step_ubp, hm, Nat.mod_eq_of_lt hlt]
      have hhit : ∀ l, hits { u with h_i := u.h_i + 1 } l = hits u l := fun l => rfl
      obtain ⟨i1, i2⟩ := ih { u with h_i := u.h_i + 1 } (by rw [hhit]; simp only; omega)
      constructor
      · simp only [track, hs, i1, hhit, hh]
        simp
        omega
      · intro k e' hk
        rcases k with _ | k
        · simp at hk
          subst hk
          simp [track, hs, hm, hits]
        · have := i2 k e' (by simpa using hk)
          simp only [track, hs, List.getElem?_cons_succ, this, hhit, matches_event_h_i]
          simp [hits, hm]
          have harith : ∀ x : Nat, u.h_i + 1 + x = u.h_i + (x + 1) := fun x => by omega
          simp only [harith]
    · have hh : hits u (e :: evs) = hits u evs := by simp [hits, hm]
      have hs : step_ubp w e u = (u, false) := by simp [step_ubp, hm]
      obtain ⟨i1, i2⟩ := ih u (by omega)
      constructor
      · simp only [track, hs, i1, hh]
      · intro k e' hk
        rcases k with _ | k
        · simp at hk
          subst hk
          simp [track, hs, hm]
        · have := i2 k e' (by simpa using hk)
          simp only [track, hs, List.getElem?_cons_succ, this]
          simp [hits, hm]

/-- C6: `check_should_break` is a repeating latch. Let a breakpoint `b` sit in
the registry with hit count 0, let no check of the run stop in an assertion,
and let the matching events be fewer than the `2^w` values its counter can
hold. Then the run over the events succeeds; on each event `b` fires exactly
when the event matches and the matching events so far, this one included, are
at least `b.count` (so not on the first `count - 1` matches, and on the
`count`-th and every later one); and the hit count at the end is the number of
matching events, non-matching events leaving it alone. -/
theorem check_should_break_latch (w : Nat) (evs : List TraceEvent) (reg : List UserBreakpoint)
    (i : Nat) (b : UserBreakpoint)
    (hdef : ∀ e ∈ evs, ∀ u ∈ reg,
      ∃ r, _check_breakpoint_logic e.undef e.ctx u e.when = Except.ok r)
    (hi : reg[i]? = some b) (h0 : b.h_i = 0) (hw : hits b evs < 2 ^ w) :
    ∃ reg' log, run_events w evs reg = Except.ok (reg', log) ∧
      reg'[i]? = some { b with h_i := hits b evs } ∧
      log.length = evs.length ∧
      ∀ k e, evs[k]? = some e →
        ∃ fires, log[k]? = some fires ∧
          fires[i]? =
            some (matches_event b e && decide (b.count ≤ hits b (evs.take (k + 1)))) := by
  obtain ⟨reg', log, h1, h2, h3⟩ := run_events_track w evs reg hdef
  obtain ⟨h4, h5⟩ := h3 i b hi
  obtain ⟨t1, t2⟩ := track_spec w evs b (by omega)
  refine ⟨reg', log, h1, ?_, h2, ?_⟩
  · rw [h4, t1, h0]
    simp
  · intro k e hk
    have hlt : k < evs.length := (List.getElem?_eq_some.mp hk).1
    obtain ⟨fires, f1, f2⟩ := h5 k hlt
    refine ⟨fires, f1, ?_⟩
    rw [f2, t2 k e hk, h0]
    simp

/-- C6 (witness): a threshold-2 breakpoint over events that match, miss,
match, match: no fire, no fire, fire, fire; final hit count 3. -/
theorem check_should_break_latch_witness :
    run_events 64 sample_events sample_registry =
      Except.ok
        ([{ name := "oid=0:2".toList, when := UBPWhen.UBP_WHEN_BEFORE,
            what := some UBPWhat.UBP_WHAT_OID, count := 2, oid := 0, h_i := 3,
            address := [⟨UBPAOperation.UBPA_OPERATION_ADD, 0, none⟩] }],
         [[false], [false], [true], [true]]) ∧
    ∃ reg' log, run_events 64 sample_events sample_registry = Except.ok (reg', log) ∧
      reg'[0]? = some
        { name := "oid=0:2".toList, when := UBPWhen.UBP_WHEN_BEFORE,
          what := some UBPWhat.UBP_WHAT_OID, count := 2, oid := 0,
          h_i := hits
            { name := "oid=0:2".toList, when := UBPWhen.UBP_WHEN_BEFORE,
              what := some UBPWhat.UBP_WHAT_OID, count := 2, oid := 0, h_i := 0,
              address := [⟨UBPAOperation.UBPA_OPERATION_ADD, 0, none⟩] } sample_events,
          address := [⟨UBPAOperation.UBPA_OPERATION_ADD, 0, none⟩] } ∧
      log.length = sample_events.length ∧
      ∀ k e, sample_events[k]? = some e →
        ∃ fires, log[k]? = some fires ∧
          fires[0]? =
            some (matches_event
              { name := "oid=0:2".toList, when := UBPWhen.UBP_WHEN_BEFORE,
                what := some UBPWhat.UBP_WHAT_OID, count := 2, oid := 0, h_i := 0,
                address := [⟨UBPAOperation.UBPA_OPERATION_ADD, 0, none⟩] } e &&
              decide (2 ≤ hits
                { name := "oid=0:2".toList, when := UBPWhen.UBP_WHEN_BEFORE,
                  what := some UBPWhat.UBP_WHAT_OID, count := 2, oid := 0, h_i := 0,
                  address := [⟨UBPAOperation.UBPA_OPERATION_ADD, 0, none⟩] }
                (sample_events.take (k + 1)))) :=
  ⟨by decide,
   check_should_break_latch 64 sample_events sample_registry 0 _
     (by
       intro e _ u hu
       simp only [sample_registry, List.mem_singleton] at hu
       subst hu
       by_cases hwhen : e.when = UBPWhen.UBP_WHEN_BEFORE
       · exact ⟨if e.ctx.h_oid = 0 then 1 else 0, by simp [_check_breakpoint_logic, hwhen]⟩
       · exact ⟨0, by
           have : ¬ UBPWhen.UBP_WHEN_BEFORE = e.when := fun h => hwhen h.symm
           simp [_check_breakpoint_logic, this]⟩)
     rfl rfl (by decide)⟩

/-! ## Claims about the `what` keyword -/

/-- C11: when the first token is the identifier `segfault`, `sigsegv` or `segv`
the parser returns kind `Segfault`, and when it is `main`, `entry`, `start` or
`_entry` it returns kind `EntryPoint`; whatever tokens follow are not looked
at, the address expression is empty, the count is 1, the phase is `Before`
and the hit count is 0. -/
theorem create_user_breakpoint_segfault_entry (U : Util) (name : List Char)
    (t : UserBreakpointToken) (rest : List UserBreakpointToken)
    (htok : tokenize_user_breakpoint_str name = t :: rest)
    (hty : t.type = UBPTType.UBPT_TYPE_IDENTIFIER) :
    ((t.value = "segfault".toList ∨ t.value = "sigsegv".toList ∨ t.value = "segv".toList) →
      create_user_breakpoint U name =
        Except.ok
          { name := name, when := UBPWhen.UBP_WHEN_BEFORE,
            what := some UBPWhat.UBP_WHAT_SEGFAULT, count := 1, oid := 0, h_i := 0,
            address := [] }) ∧
    ((t.value = "main".toList ∨ t.value = "entry".toList ∨ t.value = "start".toList ∨
        t.value = "_entry".toList) →
      create_user_breakpoint U name =
        Except.ok
          { name := name, when := UBPWhen.UBP_WHEN_BEFORE,
            what := some UBPWhat.UBP_WHAT_ENTRY, count := 1, oid := 0, h_i := 0,
            address := [] }) := by
  constructor
  · intro h
    rw [create_user_breakpoint, htok]
    rcases h with h | h | h <;> simp [action_what, hty, h, new_ubp]
  · intro h
    rw [create_user_breakpoint, htok]
    rcases h with h | h | h | h <;> simp [action_what, hty, h, new_ubp]

/-- C11 (witness): `segfault x` parses to kind `Segfault` and `entry=5 7` to
kind `EntryPoint`, the trailing tokens ignored. -/
theorem create_user_breakpoint_segfault_entry_witness :
    create_user_breakpoint specUtil "segfault x".toList =
      Except.ok
        { name := "segfault x".toList, when := UBPWhen.UBP_WHEN_BEFORE,
          what := some UBPWhat.UBP_WHAT_SEGFAULT, count := 1, oid := 0, h_i := 0,
          address := [] } ∧
    create_user_breakpoint specUtil "entry=5 7".toList =
      Except.ok
        { name := "entry=5 7".toList, when := UBPWhen.UBP_WHEN_BEFORE,
          what := some UBPWhat.UBP_WHAT_ENTRY, count := 1, oid := 0, h_i := 0,
          address := [] } :=
  ⟨(create_user_breakpoint_segfault_entry specUtil "segfault x".toList
      ⟨UBPTType.UBPT_TYPE_IDENTIFIER, "segfault".toList, 0⟩
      [⟨UBPTType.UBPT_TYPE_IDENTIFIER, "x".toList, 9⟩] (by decide) rfl).1 (Or.inl rfl),
   (create_user_breakpoint_segfault_entry specUtil "entry=5 7".toList
      ⟨UBPTType.UBPT_TYPE_IDENTIFIER, "entry".toList, 0⟩
      [⟨UBPTType.UBPT_TYPE_PUNCTUATOR, "=".toList, 5⟩,
       ⟨UBPTType.UBPT_TYPE_IDENTIFIER, "5".toList, 6⟩,
       ⟨UBPTType.UBPT_TYPE_IDENTIFIER, "7".toList, 8⟩] (by decide) rfl).2 (Or.inr (Or.inl rfl))⟩

/-- C12: when the first token is an identifier that is none of the twelve
`what` keywords, the parser stops with the syntax error that names the allowed
set, and returns no breakpoint. -/
theorem create_user_breakpoint_unknown_what (U : Util) (name : List Char)
    (t : UserBreakpointToken) (rest : List UserBreakpointToken)
    (htok : tokenize_user_breakpoint_str name = t :: rest)
    (hty : t.type = UBPTType.UBPT_TYPE_IDENTIFIER)
    (hkw : t.value ∉ ["address".toList, "addr".toList, "oid".toList, "operation".toList,
      "number".toList, "segfault".toList, "sigsegv".toList, "segv".toList, "main".toList,
      "entry".toList, "start".toList, "_entry".toList]) :
    create_user_breakpoint U name =
      Except.error "unknown 'what': please choose one of [oid, address, segfault, entry]" := by
  rw [create_user_breakpoint, htok]
  simp at hkw
  simp [action_what, hty, hkw]

/-- C12 (witness): `bogus` is rejected with the message naming the allowed
set. -/
theorem create_user_breakpoint_unknown_what_witness :
    create_user_breakpoint specUtil "bogus".toList =
      Except.error "unknown 'what': please choose one of [oid, address, segfault, entry]" :=
  create_user_breakpoint_unknown_what specUtil "bogus".toList
    ⟨UBPTType.UBPT_TYPE_IDENTIFIER, "bogus".toList, 0⟩ [] (by decide) rfl (by decide)

/-! ## Claims about the expression parser -/

/-- C13: an empty expression or a dangling sign is rejected only at the end of
the token stream. `addr=` and `addr=main+` stop with a syntax error, but
`addr=:` is accepted with the untouched zero term `(Add, 0, null)` and
`addr=1+:3` is accepted with count `str_to_uint64("3")`: the check after a sign
is that some token follows, and the `:` counts as one. -/
theorem create_user_breakpoint_dangling_before_colon :
    (∀ U : Util, create_user_breakpoint U "addr=:".toList =
      Except.ok
        { name := "addr=:".toList, when := UBPWhen.UBP_WHEN_BEFORE,
          what := some UBPWhat.UBP_WHAT_ADDRESS, count := 1, oid := 0, h_i := 0,
          address := [⟨UBPAOperation.UBPA_OPERATION_ADD, 0, none⟩] }) ∧
    (∀ U : Util, ∃ b, create_user_breakpoint U "addr=1+:3".toList = Except.ok b ∧
      b.what = some UBPWhat.UBP_WHAT_ADDRESS ∧
      b.count = U.str_to_uint64 "3".toList % 2 ^ 64 ∧ b.address.length = 1) ∧
    create_user_breakpoint specUtil "addr=1+:3".toList =
      Except.ok
        { name := "addr=1+:3".toList, when := UBPWhen.UBP_WHEN_BEFORE,
          what := some UBPWhat.UBP_WHAT_ADDRESS, count := 3, oid := 0, h_i := 0,
          address := [⟨UBPAOperation.UBPA_OPERATION_ADD, 1, none⟩] } ∧
    (∀ U : Util, create_user_breakpoint U "addr=".toList =
      Except.error "expected a token following this one") ∧
    (∀ U : Util, create_user_breakpoint U "addr=main+".toList =
      Except.error "missing expression after operator") := by
  refine ⟨?_, ?_, by decide, ?_, ?_⟩
  · intro U
    have htok : tokenize_user_breakpoint_str "addr=:".toList =
        [⟨.UBPT_TYPE_IDENTIFIER, "addr".toList, 0⟩, ⟨.UBPT_TYPE_PUNCTUATOR, "=".toList, 4⟩,
         ⟨.UBPT_TYPE_PUNCTUATOR, ":".toList, 5⟩] := by decide
    rw [create_user_breakpoint, htok]
    simp [action_what, expect_address, GET, action_address,
      _parse_token_expression, parse_expression_loop, NEXT, action_count, new_ubp, new_ubpa]
  · intro U
    have htok : tokenize_user_breakpoint_str "addr=1+:3".toList =
        [⟨.UBPT_TYPE_IDENTIFIER, "addr".toList, 0⟩, ⟨.UBPT_TYPE_PUNCTUATOR, "=".toList, 4⟩,
         ⟨.UBPT_TYPE_IDENTIFIER, "1".toList, 5⟩, ⟨.UBPT_TYPE_PUNCTUATOR, "+".toList, 6⟩,
         ⟨.UBPT_TYPE_PUNCTUATOR, ":".toList, 7⟩, ⟨.UBPT_TYPE_IDENTIFIER, "3".toList, 8⟩] := by
      decide
    rw [create_user_breakpoint, htok]
    simp [action_what, expect_address, GET, action_address,
      _parse_token_expression, parse_expression_loop, NEXT, action_count, new_ubp, new_ubpa]
  · intro U
    have htok : tokenize_user_breakpoint_str "addr=".toList =
        [⟨.UBPT_TYPE_IDENTIFIER, "addr".toList, 0⟩, ⟨.UBPT_TYPE_PUNCTUATOR, "=".toList, 4⟩] := by
      decide
    rw [create_user_breakpoint, htok]
    simp [action_what, expect_address, GET]
  · intro U
    have htok : tokenize_user_breakpoint_str "addr=main+".toList =
        [⟨.UBPT_TYPE_IDENTIFIER, "addr".toList, 0⟩, ⟨.UBPT_TYPE_PUNCTUATOR, "=".toList, 4⟩,
         ⟨.UBPT_TYPE_IDENTIFIER, "main".toList, 5⟩, ⟨.UBPT_TYPE_PUNCTUATOR, "+".toList, 9⟩] := by
      decide
    rw [create_user_breakpoint, htok]
    simp [action_what, expect_address, GET, action_address,
      _parse_token_expression, parse_expression_loop, NEXT, action_count, new_ubp, new_ubpa]

theorem merged_term_nil (U : Util) (cur : UserBreakpointAddress) :
    merged_term U cur [] = cur := by
  cases cur
  simp [merged_term]

theorem merged_term_plus (U : Util) (cur : UserBreakpointAddress) (tok : UserBreakpointToken)
    (c : List UserBreakpointToken) (ht : tok.type = UBPTType.UBPT_TYPE_PUNCTUATOR)
    (hm : ¬ tok.value = ['-']) :
    merged_term U cur (tok :: c) = merged_term U cur c := by
  simp [merged_term, is_minus, is_literal, is_symbol, ht, hm]

theorem merged_term_minus (U : Util) (cur : UserBreakpointAddress) (tok : UserBreakpointToken)
    (c : List UserBreakpointToken) (ht : tok.type = UBPTType.UBPT_TYPE_PUNCTUATOR)
    (hm : tok.value = ['-']) :
    merged_term U cur (tok :: c) =
      merged_term U
        (if cur.operation = UBPAOperation.UBPA_OPERATION_SUBTRACT then
          { cur with operation := UBPAOperation.UBPA_OPERATION_ADD }
        else { cur with operation := UBPAOperation.UBPA_OPERATION_SUBTRACT }) c := by
  have hpar : ∀ n : Nat, (n + 1) % 2 = 0 ↔ ¬ n % 2 = 0 := fun n => by omega
  cases cur with
  | mk op a s =>
    cases op <;>
      by_cases hn : (List.filter is_minus c).length % 2 = 0 <;>
      simp [merged_term, is_minus, is_literal, is_symbol, ht, hm, hpar, hn]

theorem merged_term_ident (U : Util) (cur : UserBreakpointAddress) (tok : UserBreakpointToken)
    (c : List UserBreakpointToken) (ht : ¬ tok.type = UBPTType.UBPT_TYPE_PUNCTUATOR) :
    merged_term U cur (tok :: c) =
      merged_term U
        (if U.is_uint tok.value = true then
          { cur with address := U.str_to_uint64 tok.value % 2 ^ 64 }
        else { cur with symbol_name := some tok.value }) c := by
  by_cases hu : U.is_uint tok.value = true
  · cases hl : (List.filter (is_literal U) c).getLast? <;>
      simp [merged_term, is_minus, is_literal, is_symbol, ht, hu, List.getLast?_cons, hl]
  · cases hl : (List.filter (is_symbol U) c).getLast? <;>
      simp [merged_term, is_minus, is_literal, is_symbol, ht, hu, List.getLast?_cons, hl]

/-- What an accepted run of the expression loop returns: the tokens split into
the consumed ones and the returned rest, which is null or starts at a `:`;
the consumed punctuators are signs; the expression is the one merged term. -/
theorem parse_expression_loop_merged (U : Util) :
    ∀ (ts : List UserBreakpointToken) (cur : UserBreakpointAddress)
      (terms : List UserBreakpointAddress) (ret : List UserBreakpointToken),
      parse_expression_loop U ts [] cur = Except.ok (terms, ret) →
      ∃ consumed, ts = consumed ++ ret ∧ terms = [merged_term U cur consumed] ∧
        (∀ t ∈ consumed, t.type = UBPTType.UBPT_TYPE_PUNCTUATOR →
          t.value = "+".toList ∨ t.value = "-".toList) ∧
        (ret = [] ∨ ∃ c r, ret = c :: r ∧ c.type = UBPTType.UBPT_TYPE_PUNCTUATOR ∧
          c.value = ":".toList) := by
  intro ts
  induction ts with
  | nil =>
    intro cur terms ret h
    simp [parse_expression_loop] at h
    obtain ⟨h1, h2⟩ := h
    subst h1 h2
    exact ⟨[], rfl, by rw [merged_term_nil], by simp, Or.inl rfl⟩
  | cons tok rest ih =>
    intro cur terms ret h
    by_cases ht : tok.type = UBPTType.UBPT_TYPE_PUNCTUATOR
    · by_cases hp : tok.value = ['+']
      · by_cases hr : rest = []
        · simp [parse_expression_loop, ht, hp, NEXT, hr] at h
        · simp [parse_expression_loop, ht, hp, NEXT, hr] at h
          obtain ⟨c, h1, h2, h3, h4⟩ := ih cur terms ret h
          refine ⟨tok :: c, by simp [h1], ?_, ?_, h4⟩
          · rw [merged_term_plus U cur tok c ht (by simp [hp])]
            exact h2
          · intro t htm htp
            simp at htm
            rcases htm with htm | htm
            · subst htm
              exact Or.inl (by simpa using hp)
            · exact h3 t htm htp
      · by_cases hm : tok.value = ['-']
        · by_cases hr : rest = []
          · simp [parse_expression_loop, ht, hp, hm, NEXT, hr] at h
          · simp [parse_expression_loop, ht, hp, hm, NEXT, hr] at h
            obtain ⟨c, h1, h2, h3, h4⟩ := ih _ terms ret h
            refine ⟨tok :: c, by simp [h1], ?_, ?_, h4⟩
            · rw [merged_term_minus U cur tok c ht hm]
              exact h2
            · intro t htm htp
              simp at htm
              rcases htm with htm | htm
              · subst htm
                exact Or.inr (by simpa using hm)
              · exact h3 t htm htp
        · by_cases hc : tok.value = [':']
          · simp [parse_expression_loop, ht, hp, hm, hc] at h
            obtain ⟨h1, h2⟩ := h
            subst h1 h2
            exact ⟨[], rfl, by rw [merged_term_nil], by simp,
              Or.inr ⟨tok, rest, rfl, ht, by simpa using hc⟩⟩
          · simp [parse_expression_loop, ht, hp, hm, hc] at h
    · by_cases hr : rest = []
      · subst hr
        simp [parse_expression_loop, ht] at h
        obtain ⟨h1, h2⟩ := h
        subst h1 h2
        refine ⟨[tok], rfl, ?_, ?_, Or.inl rfl⟩
        · rw [merged_term_ident U cur tok [] ht, merged_term_nil]
          norm_num
        · intro t htm htp
          simp at htm
          subst htm
          exact absurd htp ht
      · simp [parse_expression_loop, ht, hr] at h
        obtain ⟨c, h1, h2, h3, h4⟩ := ih _ terms ret h
        refine ⟨tok :: c, by simp [h1], ?_, ?_, h4⟩
        · rw [merged_term_ident U cur tok c ht]
          exact h2
        · intro t htm htp
          simp at htm
          rcases htm with htm | htm
          · subst htm
            exact absurd htp ht
          · exact h3 t htm htp

/-- A run of sign tokens followed by one identifier is accepted to the end of
the token stream and gives the merged term. -/
theorem parse_expression_loop_signs (U : Util) (t : UserBreakpointToken)
    (ht : t.type = UBPTType.UBPT_TYPE_IDENTIFIER) :
    ∀ (signs : List UserBreakpointToken) (cur : UserBreakpointAddress),
      (∀ s ∈ signs, s.type = UBPTType.UBPT_TYPE_PUNCTUATOR ∧
        (s.value = "+".toList ∨ s.value = "-".toList)) →
      parse_expression_loop U (signs ++ [t]) [] cur =
        Except.ok ([merged_term U cur (signs ++ [t])], []) := by
  have htn : ¬ t.type = UBPTType.UBPT_TYPE_PUNCTUATOR := by simp [ht]
  intro signs
  induction signs with
  | nil =>
    intro cur _
    rw [List.nil_append, merged_term_ident U cur t [] htn, merged_term_nil]
    simp [parse_expression_loop, htn]
  | cons s rest ih =>
    intro cur hs
    obtain ⟨hsp, hsv⟩ := hs s (by simp)
    have ih' := fun c => ih c (fun x hx => hs x (by simp [hx]))
    rcases hsv with hv | hv
    · have hv' : s.value = ['+'] := by simpa using hv
      rw [List.cons_append, merged_term_plus U cur s _ hsp (by simp [hv'])]
      simp [parse_expression_loop, hsp, hv', NEXT]
      exact ih' cur
    · have hv' : s.value = ['-'] := by simpa using hv
      rw [List.cons_append, merged_term_minus U cur s _ hsp hv']
      simp [parse_expression_loop, hsp, hv', NEXT]
      exact ih' _

/-- C14: a run of `+` and `-` tokens followed by a single term is accepted, and
the sign of the parsed term is `Subtract` exactly when the run holds an odd
number of `-` tokens and `Add` exactly when it holds an even number: the
default is `Add`, each `-` toggles, `+` changes nothing. -/
theorem parse_token_expression_sign_parity (U : Util) (signs : List UserBreakpointToken)
    (t : UserBreakpointToken) (ht : t.type = UBPTType.UBPT_TYPE_IDENTIFIER)
    (hs : ∀ s ∈ signs, s.type = UBPTType.UBPT_TYPE_PUNCTUATOR ∧
      (s.value = "+".toList ∨ s.value = "-".toList)) :
    ∃ term, _parse_token_expression U (signs ++ [t]) = Except.ok ([term], []) ∧
      (term.operation = UBPAOperation.UBPA_OPERATION_SUBTRACT ↔
        (signs.filter (fun s => decide (s.value = "-".toList))).length % 2 = 1) ∧
      (term.operation = UBPAOperation.UBPA_OPERATION_ADD ↔
        (signs.filter (fun s => decide (s.value = "-".toList))).length % 2 = 0) := by
  have hloop := parse_expression_loop_signs U t ht signs new_ubpa hs
  have hfil : (signs ++ [t]).filter is_minus =
      signs.filter (fun s => decide (s.value = "-".toList)) := by
    rw [List.filter_append]
    have h1 : [t].filter is_minus = [] := by simp [is_minus, ht]
    rw [h1, List.append_nil]
    apply List.filter_congr
    intro s hsm
    simp [is_minus, (hs s hsm).1]
  refine ⟨merged_term U new_ubpa (signs ++ [t]), ?_, ?_, ?_⟩
  · rw [_parse_token_expression, if_neg (by simp)]
    exact hloop
  · simp only [merged_term, hfil, new_ubpa]
    by_cases hn : (signs.filter (fun s => decide (s.value = "-".toList))).length % 2 = 0
    · simp [hn]
    · have : (signs.filter (fun s => decide (s.value = "-".toList))).length % 2 = 1 := by omega
      simp [this]
  · simp only [merged_term, hfil, new_ubpa]
    by_cases hn : (signs.filter (fun s => decide (s.value = "-".toList))).length % 2 = 0
    · simp [hn]
    · have : (signs.filter (fun s => decide (s.value = "-".toList))).length % 2 = 1 := by omega
      simp [this]

/-- C14 (witness): the signs `- + - -` before `5` give `Subtract` (three `-`),
as does the specification `addr=-+--5`. -/
theorem parse_token_expression_sign_parity_witness :
    (∃ term,
      _parse_token_expression specUtil
          ([⟨UBPTType.UBPT_TYPE_PUNCTUATOR, "-".toList, 5⟩,
            ⟨UBPTType.UBPT_TYPE_PUNCTUATOR, "+".toList, 6⟩,
            ⟨UBPTType.UBPT_TYPE_PUNCTUATOR, "-".toList, 7⟩,
            ⟨UBPTType.UBPT_TYPE_PUNCTUATOR, "-".toList, 8⟩] ++
           [⟨UBPTType.UBPT_TYPE_IDENTIFIER, "5".toList, 9⟩]) = Except.ok ([term], []) ∧
      (term.operation = UBPAOperation.UBPA_OPERATION_SUBTRACT ↔
        (([⟨UBPTType.UBPT_TYPE_PUNCTUATOR, "-".toList, 5⟩,
            ⟨UBPTType.UBPT_TYPE_PUNCTUATOR, "+".toList, 6⟩,
            ⟨UBPTType.UBPT_TYPE_PUNCTUATOR, "-".toList, 7⟩,
            ⟨UBPTType.UBPT_TYPE_PUNCTUATOR, "-".toList, 8⟩] :
            List UserBreakpointToken).filter
          (fun s => decide (s.value = "-".toList))).length % 2 = 1) ∧
      (term.operation = UBPAOperation.UBPA_OPERATION_ADD ↔
        (([⟨UBPTType.UBPT_TYPE_PUNCTUATOR, "-".toList, 5⟩,
            ⟨UBPTType.UBPT_TYPE_PUNCTUATOR, "+".toList, 6⟩,
            ⟨UBPTType.UBPT_TYPE_PUNCTUATOR, "-".toList, 7⟩,
            ⟨UBPTType.UBPT_TYPE_PUNCTUATOR, "-".toList, 8⟩] :
            List UserBreakpointToken).filter
          (fun s => decide (s.value = "-".toList))).length % 2 = 0)) ∧
    create_user_breakpoint specUtil "addr=-+--5".toList =
      Except.ok
        { name := "addr=-+--5".toList, when := UBPWhen.UBP_WHEN_BEFORE,
          what := some UBPWhat.UBP_WHAT_ADDRESS, count := 1, oid := 0, h_i := 0,
          address := [⟨UBPAOperation.UBPA_OPERATION_SUBTRACT, 5, none⟩] } :=
  ⟨parse_token_expression_sign_parity specUtil _ _ rfl (by decide), by decide⟩

/-- C19: an accepted expression is always a single term. The tokens split into
the consumed ones and the returned rest (null, or starting at the `:`); the
term's sign is `Subtract` exactly when the consumed tokens hold an odd number
of `-`; its address is the value of the last consumed literal (0 without
one); its symbol name is the text of the last consumed non-literal identifier
(null without one). -/
theorem parse_token_expression_single_term (U : Util) (ts : List UserBreakpointToken)
    (terms : List UserBreakpointAddress) (ret : List UserBreakpointToken)
    (h : _parse_token_expression U ts = Except.ok (terms, ret)) :
    ∃ consumed term, ts = consumed ++ ret ∧ terms = [term] ∧
      (ret = [] ∨ ∃ c r, ret = c :: r ∧ c.type = UBPTType.UBPT_TYPE_PUNCTUATOR ∧
        c.value = ":".toList) ∧
      (∀ t ∈ consumed, t.type = UBPTType.UBPT_TYPE_PUNCTUATOR →
        t.value = "+".toList ∨ t.value = "-".toList) ∧
      (term.operation = UBPAOperation.UBPA_OPERATION_SUBTRACT ↔
        (consumed.filter is_minus).length % 2 = 1) ∧
      term.address =
        (match (consumed.filter (is_literal U)).getLast? with
         | some t => U.str_to_uint64 t.value % 2 ^ 64
         | none => 0) ∧
      term.symbol_name = ((consumed.filter (is_symbol U)).getLast?).map (fun t => t.value) := by
  unfold _parse_token_expression at h
  split at h
  · cases h
  · obtain ⟨c, h1, h2, h3, h4⟩ := parse_expression_loop_merged U ts new_ubpa terms ret h
    refine ⟨c, merged_term U new_ubpa c, h1, h2, h4, h3, ?_, ?_, ?_⟩
    · simp only [merged_term, new_ubpa]
      by_cases hn : (c.filter is_minus).length % 2 = 0
      · simp [hn]
      · have : (c.filter is_minus).length % 2 = 1 := by omega
        simp [this]
    · simp only [merged_term, new_ubpa]
    · simp only [merged_term, new_ubpa]
      cases (c.filter (is_symbol U)).getLast? <;> rfl

/-- C19 (witness): `main + 0x10 - 8 foo` is one term: `Subtract`, address 8,
symbol `foo`. -/
theorem parse_token_expression_single_term_witness :
    ∃ (consumed : List UserBreakpointToken) (term : UserBreakpointAddress),
      ([⟨UBPTType.UBPT_TYPE_IDENTIFIER, "main".toList, 5⟩,
       ⟨UBPTType.UBPT_TYPE_PUNCTUATOR, "+".toList, 9⟩,
       ⟨UBPTType.UBPT_TYPE_IDENTIFIER, "0x10".toList, 10⟩,
       ⟨UBPTType.UBPT_TYPE_PUNCTUATOR, "-".toList, 14⟩,
       ⟨UBPTType.UBPT_TYPE_IDENTIFIER, "8".toList, 15⟩,
       ⟨UBPTType.UBPT_TYPE_IDENTIFIER, "foo".toList, 17⟩] : List UserBreakpointToken) = consumed ++ [] ∧
      ([⟨UBPAOperation.UBPA_OPERATION_SUBTRACT, 8, some "foo".toList⟩] :
        List UserBreakpointAddress) = [term] ∧
      (([] : List UserBreakpointToken) = [] ∨
        ∃ c r, ([] : List UserBreakpointToken) = c :: r ∧
          c.type = UBPTType.UBPT_TYPE_PUNCTUATOR ∧ c.value = ":".toList) ∧
      (∀ t ∈ consumed, t.type = UBPTType.UBPT_TYPE_PUNCTUATOR →
        t.value = "+".toList ∨ t.value = "-".toList) ∧
      (term.operation = UBPAOperation.UBPA_OPERATION_SUBTRACT ↔
        (consumed.filter is_minus).length % 2 = 1) ∧
      term.address =
        (match (consumed.filter (is_literal specUtil)).getLast? with
         | some t => specUtil.str_to_uint64 t.value % 2 ^ 64
         | none => 0) ∧
      term.symbol_name =
        ((consumed.filter (is_symbol specUtil)).getLast?).map (fun t => t.value) :=
  parse_token_expression_single_term specUtil
    [⟨UBPTType.UBPT_TYPE_IDENTIFIER, "main".toList, 5⟩,
       ⟨UBPTType.UBPT_TYPE_PUNCTUATOR, "+".toList, 9⟩,
       ⟨UBPTType.UBPT_TYPE_IDENTIFIER, "0x10".toList, 10⟩,
       ⟨UBPTType.UBPT_TYPE_PUNCTUATOR, "-".toList, 14⟩,
       ⟨UBPTType.UBPT_TYPE_IDENTIFIER, "8".toList, 15⟩,
       ⟨UBPTType.UBPT_TYPE_IDENTIFIER, "foo".toList, 17⟩]
    [⟨UBPAOperation.UBPA_OPERATION_SUBTRACT, 8, some "foo".toList⟩] [] (by decide)

/-! ## Claims about the registry -/

theorem fill_ubpa_idem (bin_base bin_base' : Nat) (se_head se_head' : List SymbolEntry)
    (t : UserBreakpointAddress) :
    fill_ubpa bin_base' se_head' (fill_ubpa bin_base se_head t) = fill_ubpa bin_base se_head t := by
  cases hs : t.symbol_name with
  | none => simp [fill_ubpa, hs]
  | some n =>
    by_cases hr : _is_reference_constant n = false
    · have h1 : (fill_ubpa bin_base se_head t).symbol_name = none := by
        simp only [fill_ubpa, hs, hr, if_true, se_loop_find]
        cases List.find? (fun e => decide (e.name = n)) se_head with
        | none => simp
        | some se => by_cases hst : se.type = SEType.SE_TYPE_STATIC <;> simp [hst]
      generalize fill_ubpa bin_base se_head t = t' at h1
      simp [fill_ubpa, h1]
    · simp at hr
      simp [fill_ubpa, hs, hr]

theorem fill_ubp_idem (bin_base bin_base' : Nat) (se_head se_head' : List SymbolEntry)
    (u : UserBreakpoint) :
    fill_ubp bin_base' se_head' (fill_ubp bin_base se_head u) = fill_ubp bin_base se_head u := by
  simp [fill_ubp, List.map_map, Function.comp_def, fill_ubpa_idem]

/-- C16: resolution is idempotent. When `fill_symbol_references` has turned the
registry into `reg'`, a second run succeeds and returns `reg'` again: every
breakpoint and every term, resolved addresses included, is unchanged. This
holds for a second run under any context that has a binary segment, the same
context in particular. -/
theorem fill_symbol_references_idempotent (ctx ctx' : HeaptraceContext)
    (reg reg' : List UserBreakpoint) (bin_pme' : ProcMapsEntry)
    (h : fill_symbol_references ctx reg = Except.ok reg')
    (hpme' : pme_walk ctx'.pme_head ProcELFType.PROCELF_TYPE_BINARY = some bin_pme') :
    fill_symbol_references ctx reg' = Except.ok reg' ∧
    fill_symbol_references ctx' reg' = Except.ok reg' := by
  cases hp : pme_walk ctx.pme_head ProcELFType.PROCELF_TYPE_BINARY with
  | none => simp [fill_symbol_references, hp] at h
  | some bin_pme =>
    rw [fill_symbol_references_eq ctx reg bin_pme hp] at h
    cases h
    rw [fill_symbol_references_eq ctx _ bin_pme hp, fill_symbol_references_eq ctx' _ bin_pme' hpme']
    simp [List.map_map, Function.comp_def, fill_ubp_idem]

/-- C16 (witness): resolving `addr=main`, `addr=bin` and `addr=foo` once gives
the terms `0x401139`, `bin` (untouched) and a cleared unknown; a second run
returns the same registry. -/
theorem fill_symbol_references_idempotent_witness :
    fill_symbol_references sample_ctx
        [{ name := "addr=main".toList, when := UBPWhen.UBP_WHEN_BEFORE,
           what := some UBPWhat.UBP_WHAT_ADDRESS, count := 1, oid := 0, h_i := 0,
           address := [⟨UBPAOperation.UBPA_OPERATION_ADD, 0x401139, none⟩] },
         { name := "addr=bin".toList, when := UBPWhen.UBP_WHEN_BEFORE,
           what := some UBPWhat.UBP_WHAT_ADDRESS, count := 1, oid := 0, h_i := 0,
           address := [⟨UBPAOperation.UBPA_OPERATION_ADD, 0, some "bin".toList⟩] },
         { name := "addr=foo".toList, when := UBPWhen.UBP_WHEN_BEFORE,
           what := some UBPWhat.UBP_WHAT_ADDRESS, count := 1, oid := 0, h_i := 0,
           address := [⟨UBPAOperation.UBPA_OPERATION_ADD, 0, none⟩] }] =
      Except.ok
        [{ name := "addr=main".toList, when := UBPWhen.UBP_WHEN_BEFORE,
           what := some UBPWhat.UBP_WHAT_ADDRESS, count := 1, oid := 0, h_i := 0,
           address := [⟨UBPAOperation.UBPA_OPERATION_ADD, 0x401139, none⟩] },
         { name := "addr=bin".toList, when := UBPWhen.UBP_WHEN_BEFORE,
           what := some UBPWhat.UBP_WHAT_ADDRESS, count := 1, oid := 0, h_i := 0,
           address := [⟨UBPAOperation.UBPA_OPERATION_ADD, 0, some "bin".toList⟩] },
         { name := "addr=foo".toList, when := UBPWhen.UBP_WHEN_BEFORE,
           what := some UBPWhat.UBP_WHAT_ADDRESS, count := 1, oid := 0, h_i := 0,
           address := [⟨UBPAOperation.UBPA_OPERATION_ADD, 0, none⟩] }] :=
  (fill_symbol_references_idempotent sample_ctx sample_ctx
    [{ name := "addr=main".toList, when := UBPWhen.UBP_WHEN_BEFORE,
       what := some UBPWhat.UBP_WHAT_ADDRESS, count := 1, oid := 0, h_i := 0,
       address := [⟨UBPAOperation.UBPA_OPERATION_ADD, 0, some "main".toList⟩] },
     { name := "addr=bin".toList, when := UBPWhen.UBP_WHEN_BEFORE,
       what := some UBPWhat.UBP_WHAT_ADDRESS, count := 1, oid := 0, h_i := 0,
       address := [⟨UBPAOperation.UBPA_OPERATION_ADD, 0, some "bin".toList⟩] },
     { name := "addr=foo".toList, when := UBPWhen.UBP_WHEN_BEFORE,
       what := some UBPWhat.UBP_WHAT_ADDRESS, count := 1, oid := 0, h_i := 0,
       address := [⟨UBPAOperation.UBPA_OPERATION_ADD, 0, some "foo".toList⟩] }]
    _ ⟨ProcELFType.PROCELF_TYPE_BINARY, 0x400000⟩ (by decide) (by decide)).1

theorem insert_walk_eq (ubp : UserBreakpoint) (ubp_next : List UserBreakpoint) :
    ∀ (rest : List UserBreakpoint) (cur_ubp : UserBreakpoint),
      insert_walk ubp ubp_next cur_ubp rest = cur_ubp :: rest ++ ubp :: ubp_next := by
  intro rest
  induction rest with
  | nil => intro cur_ubp; rfl
  | cons n r ih => intro cur_ubp; simp [insert_walk, ih]

/-- C18: `insert_user_breakpoint` appends at the tail. For every registry
`[b1..bn]` and every breakpoint `b` whose `next` link is null, the registry
after the insertion is `[b1..bn, b]`: the new entry is last, and every earlier
position holds the entry it held before, unchanged. -/
theorem insert_user_breakpoint_appends (reg : List UserBreakpoint) (b : UserBreakpoint) :
    insert_user_breakpoint reg b [] = reg ++ [b] ∧
    (insert_user_breakpoint reg b []).length = reg.length + 1 ∧
    (insert_user_breakpoint reg b [])[reg.length]? = some b ∧
    ∀ i, i < reg.length → (insert_user_breakpoint reg b [])[i]? = reg[i]? := by
  have e : insert_user_breakpoint reg b [] = reg ++ [b] := by
    cases reg with
    | nil => rfl
    | cons c r => simp [insert_user_breakpoint, insert_walk_eq]
  refine ⟨e, by simp [e], by simp [e], ?_⟩
  intro i hi
  rw [e, List.getElem?_append_left hi]

theorem free_address_list_diverges (ubpa : UserBreakpointAddress)
    (next_operation : List UserBreakpointAddress) :
    ∀ fuel, free_address_list fuel (ubpa :: next_operation) = none := by
  intro fuel
  induction fuel with
  | zero => rfl
  | succ n ih => simp [free_address_list, ih]

/-- C20: releasing does not finish once a term list is non-empty.
`free_address_list` on a non-null term calls itself on the same term, so no
amount of fuel lets it return, and `free_user_breakpoints` on a registry that
holds a breakpoint with a non-empty address expression does not return
either; only a registry whose breakpoints all have a null expression is
released, with one `free` per breakpoint. -/
theorem free_user_breakpoints_diverges (reg : List UserBreakpoint) (b : UserBreakpoint)
    (hb : b ∈ reg) (hne : b.address ≠ []) :
    (∀ fuel, free_address_list fuel b.address = none) ∧
    (∀ fuel, free_user_breakpoints fuel reg = none) ∧
    (∀ (fuel : Nat) (reg0 : List UserBreakpoint), (∀ u ∈ reg0, u.address = []) →
      free_user_breakpoints (fuel + 1) reg0 = some reg0.length) := by
  have h1 : ∀ fuel, free_address_list fuel b.address = none := by
    intro fuel
    cases hbs : b.address with
    | nil => exact absurd hbs hne
    | cons a r => exact free_address_list_diverges a r fuel
  refine ⟨h1, ?_, ?_⟩
  · intro fuel
    induction reg with
    | nil => simp at hb
    | cons u us ih =>
      simp at hb
      rcases hb with hb | hb
      · subst hb
        simp [free_user_breakpoints, h1]
      · have := ih hb
        simp only [free_user_breakpoints, this]
        cases free_address_list fuel u.address <;> rfl
  · intro fuel reg0
    induction reg0 with
    | nil => intro _; rfl
    | cons u us ih =>
      intro hall
      have hu : u.address = [] := hall u (by simp)
      have := ih (fun v hv => hall v (by simp [hv]))
      simp [free_user_breakpoints, hu, free_address_list, this]
      omega

/-- C20 (witness): the registry holding the breakpoint parsed from `addr=main`
is never released. -/
theorem free_user_breakpoints_diverges_witness :
    (∀ fuel, free_address_list fuel
      [⟨UBPAOperation.UBPA_OPERATION_ADD, 0, some "main".toList⟩] = none) ∧
    (∀ fuel, free_user_breakpoints fuel
      [{ name := "addr=main".toList, when := UBPWhen.UBP_WHEN_BEFORE,
         what := some UBPWhat.UBP_WHAT_ADDRESS, count := 1, oid := 0, h_i := 0,
         address := [⟨UBPAOperation.UBPA_OPERATION_ADD, 0, some "main".toList⟩] }] = none) ∧
    (∀ (fuel : Nat) (reg0 : List UserBreakpoint), (∀ u ∈ reg0, u.address = []) →
      free_user_breakpoints (fuel + 1) reg0 = some reg0.length) :=
  free_user_breakpoints_diverges
    [{ name := "addr=main".toList, when := UBPWhen.UBP_WHEN_BEFORE,
       what := some UBPWhat.UBP_WHAT_ADDRESS, count := 1, oid := 0, h_i := 0,
       address := [⟨UBPAOperation.UBPA_OPERATION_ADD, 0, some "main".toList⟩] }]
    { name := "addr=main".toList, when := UBPWhen.UBP_WHEN_BEFORE,
      what := some UBPWhat.UBP_WHAT_ADDRESS, count := 1, oid := 0, h_i := 0,
      address := [⟨UBPAOperation.UBPA_OPERATION_ADD, 0, some "main".toList⟩] }
    (by simp) (by simp)

theorem buffer_fill_nil (buf : Nat → Option (List Char)) (c : Nat) :
    buffer_fill buf c [] = buf := by
  funext k
  simp [buffer_fill]

theorem buffer_fill_cons (buf : Nat → Option (List Char)) (c : Nat) (n : List Char)
    (ns : List (List Char)) :
    buffer_fill (buffer_write buf c n) (c + 1) ns = buffer_fill buf c (n :: ns) := by
  funext k
  by_cases h1 : k = c
  · subst h1
    simp [buffer_fill, buffer_write]
  · by_cases h2 : c + 1 ≤ k ∧ k < c + 1 + ns.length
    · have h3 : c ≤ k ∧ k < c + (n :: ns).length := by simp; omega
      have h4 : k - c = (k - (c + 1)) + 1 := by omega
      simp only [buffer_fill, h2, h3, and_self, if_true, h4, List.getElem?_cons_succ]
    · have h3 : ¬ (c ≤ k ∧ k < c + (n :: ns).length) := by simp at h2 ⊢; omega
      simp only [buffer_fill, h2, h3, if_false, buffer_write, h1]

theorem buffer_fill_append (buf : Nat → Option (List Char)) (c : Nat)
    (ns1 ns2 : List (List Char)) :
    buffer_fill (buffer_fill buf c ns1) (c + ns1.length) ns2 = buffer_fill buf c (ns1 ++ ns2) := by
  funext k
  by_cases h1 : c ≤ k ∧ k < c + ns1.length
  · have h2 : ¬ (c + ns1.length ≤ k ∧ k < c + ns1.length + ns2.length) := by omega
    have h3 : c ≤ k ∧ k < c + (ns1 ++ ns2).length := by simp; omega
    simp only [buffer_fill, h1, h2, h3, and_self, if_true, if_false]
    rw [List.getElem?_append_left (by omega)]
  · by_cases h2 : c + ns1.length ≤ k ∧ k < c + ns1.length + ns2.length
    · have h3 : c ≤ k ∧ k < c + (ns1 ++ ns2).length := by simp; omega
      simp only [buffer_fill, h2, h3, and_self, if_true]
      rw [List.getElem?_append_right (by omega)]
      congr 1
      omega
    · have h3 : ¬ (c ≤ k ∧ k < c + (ns1 ++ ns2).length) := by simp at h1 h2 ⊢; omega
      simp only [buffer_fill, h1, h2, h3, if_false]

theorem count_ubpa_loop_eq (terms : List UserBreakpointAddress) :
    ∀ (count : Nat) (se_names : Option (Nat → Option (List Char))),
      count_ubpa_loop terms count se_names =
        (count + (terms.filterMap referenced_name).length,
          se_names.map (fun buf => buffer_fill buf count (terms.filterMap referenced_name))) := by
  induction terms with
  | nil =>
    intro count se_names
    cases se_names <;> simp [count_ubpa_loop, buffer_fill_nil]
  | cons t rest ih =>
    intro count se_names
    cases hs : t.symbol_name with
    | none =>
      have hr : referenced_name t = none := by simp [referenced_name, hs]
      simp [count_ubpa_loop, hs, ih, List.filterMap_cons, hr]
    | some n =>
      by_cases hc : _is_reference_constant n = false
      · have hr : referenced_name t = some n := by simp [referenced_name, hs, hc]
        cases se_names with
        | none =>
          simp [count_ubpa_loop, hs, hc, ih, List.filterMap_cons, hr]
          omega
        | some buf =>
          simp [count_ubpa_loop, hs, hc, ih, List.filterMap_cons, hr, buffer_fill_cons]
          omega
      · simp at hc
        have hr : referenced_name t = none := by simp [referenced_name, hs, hc]
        simp [count_ubpa_loop, hs, hc, ih, List.filterMap_cons, hr]

theorem count_ubp_loop_eq (reg : List UserBreakpoint) :
    ∀ (count : Nat) (se_names : Option (Nat → Option (List Char))),
      count_ubp_loop reg count se_names =
        (count + (referenced_names reg).length,
          se_names.map (fun buf => buffer_fill buf count (referenced_names reg))) := by
  induction reg with
  | nil =>
    intro count se_names
    cases se_names <;> simp [count_ubp_loop, referenced_names, buffer_fill_nil]
  | cons u us ih =>
    intro count se_names
    have hn : referenced_names (u :: us) =
        u.address.filterMap referenced_name ++ referenced_names us := by
      simp [referenced_names]
    cases se_names with
    | none =>
      simp [count_ubp_loop, count_ubpa_loop_eq, ih, hn]
      omega
    | some buf =>
      simp [count_ubp_loop, count_ubpa_loop_eq, ih, hn, buffer_fill_append]
      omega

/-- C15: `count_symbol_references` enumerates the names of the terms that
carry a symbol name other than `bin` and `libc`, in registry order then term
order, once per referencing term. With a null buffer it returns their number;
with a buffer it returns the same number, stores the k-th name in slot `k` for
every `k` below that number, and leaves the later slots alone. -/
theorem count_symbol_references_enumerates (reg : List UserBreakpoint) :
    count_symbol_references none reg = ((referenced_names reg).length, none) ∧
    (∀ buf : Nat → Option (List Char), ∃ buf',
      count_symbol_references (some buf) reg = ((referenced_names reg).length, some buf') ∧
      (∀ k, k < (referenced_names reg).length → buf' k = (referenced_names reg)[k]?) ∧
      (∀ k, (referenced_names reg).length ≤ k → buf' k = buf k)) ∧
    (∀ n ∈ referenced_names reg, n ≠ "bin".toList ∧ n ≠ "libc".toList) ∧
    (∀ b ∈ reg, ∀ t ∈ b.address, ∀ n, t.symbol_name = some n →
      n ≠ "bin".toList → n ≠ "libc".toList → n ∈ referenced_names reg) := by
  refine ⟨?_, ?_, ?_, ?_⟩
  · simp [count_symbol_references, count_ubp_loop_eq]
  · intro buf
    refine ⟨buffer_fill buf 0 (referenced_names reg), ?_, ?_, ?_⟩
    · simp [count_symbol_references, count_ubp_loop_eq]
    · intro k hk
      simp [buffer_fill, hk]
    · intro k hk
      have : ¬ k < (referenced_names reg).length := by omega
      simp [buffer_fill, this]
  · intro n hn
    simp only [referenced_names, List.mem_flatMap, List.mem_filterMap] at hn
    obtain ⟨b, _, t, _, ht⟩ := hn
    unfold referenced_name at ht
    split at ht
    · split at ht
      · cases ht
      · rename_i m _ hrc
        cases ht
        simp [_is_reference_constant] at hrc
        exact hrc
    · cases ht
  · intro b hb t ht n hs h1 h2
    simp only [referenced_names, List.mem_flatMap, List.mem_filterMap]
    refine ⟨b, hb, t, ht, ?_⟩
    have h1' : ¬ n = ['b', 'i', 'n'] := by simpa using h1
    have h2' : ¬ n = ['l', 'i', 'b', 'c'] := by simpa using h2
    simp [referenced_name, hs, _is_reference_constant, h1', h2']

/-! ## Token offsets -/

theorem lex_runs_offsets (s : List Char) :
    ∀ (rest p0 run : List Char) (i : Nat),
      s = p0 ++ run ++ rest → i = p0.length + run.length →
      (∀ t ∈ lex_runs rest i run,
        (s.drop t.i).take t.value.length = t.value ∧ p0.length ≤ t.i) ∧
      List.Pairwise (fun a b : UserBreakpointToken => a.i < b.i) (lex_runs rest i run) := by
  have hflush : ∀ (rest p0 run : List Char) (i : Nat),
      s = p0 ++ run ++ rest → i = p0.length + run.length →
      ∀ t ∈ flush_run run i,
        (s.drop t.i).take t.value.length = t.value ∧ t.i = p0.length ∧ t.i < i := by
    intro rest p0 run i hs hi t ht
    unfold flush_run at ht
    split at ht
    · simp at ht
    · rename_i hne
      simp at ht
      subst ht
      have hlen : 0 < run.length := List.length_pos.mpr hne
      have hoff : i - run.length = p0.length := by omega
      refine ⟨?_, hoff, by simp only; omega⟩
      simp only [hoff]
      rw [hs, List.append_assoc, List.drop_left, List.take_left]
  have hpw : ∀ (run : List Char) (i : Nat),
      List.Pairwise (fun a b : UserBreakpointToken => a.i < b.i) (flush_run run i) := by
    intro run i
    unfold flush_run
    split <;> simp
  intro rest
  induction rest with
  | nil =>
    intro p0 run i hs hi
    refine ⟨?_, by simpa [lex_runs] using hpw run i⟩
    intro t ht
    have := hflush [] p0 run i hs hi t (by simpa [lex_runs] using ht)
    exact ⟨this.1, by omega⟩
  | cons c cs ih =>
    intro p0 run i hs hi
    have hnext := ih (p0 ++ run ++ [c]) [] (i + 1) (by simp [hs]) (by simp [hi]; omega)
    obtain ⟨n1, n2⟩ := hnext
    have hlen : (p0 ++ run ++ [c]).length = i + 1 := by simp [hi]; omega
    by_cases hp : isPunctChar c = true
    · have hdrop : s.drop i = c :: cs := by
        rw [hs, hi, ← List.length_append, List.drop_left]
      constructor
      · intro t ht
        simp only [lex_runs, hp, if_true, List.mem_append, List.mem_cons] at ht
        rcases ht with ht | ht | ht
        · have := hflush (c :: cs) p0 run i hs hi t ht
          exact ⟨this.1, by omega⟩
        · subst ht
          exact ⟨by simp [hdrop], by simp only; omega⟩
        · have := n1 t ht
          exact ⟨this.1, by omega⟩
      · simp only [lex_runs, hp, if_true]
        rw [List.pairwise_append]
        refine ⟨hpw run i, ?_, ?_⟩
        · rw [List.pairwise_cons]
          refine ⟨?_, n2⟩
          intro b hb
          have := (n1 b hb).2
          simp only
          omega
        · intro a ha b hb
          have h1 := (hflush (c :: cs) p0 run i hs hi a ha).2.2
          simp only [List.mem_cons] at hb
          rcases hb with hb | hb
          · subst hb
            exact h1
          · have := (n1 b hb).2
            omega
    · by_cases hsp : isSpaceChar c = true
      · constructor
        · intro t ht
          rw [lex_runs, if_neg hp, if_pos hsp, List.mem_append] at ht
          rcases ht with ht | ht
          · have := hflush (c :: cs) p0 run i hs hi t ht
            exact ⟨this.1, by omega⟩
          · have := n1 t ht
            exact ⟨this.1, by omega⟩
        · rw [lex_runs, if_neg hp, if_pos hsp, List.pairwise_append]
          refine ⟨hpw run i, n2, ?_⟩
          intro a ha b hb
          have h1 := (hflush (c :: cs) p0 run i hs hi a ha).2.2
          have := (n1 b hb).2
          omega
      · rw [lex_runs, if_neg hp, if_neg hsp]
        exact ih p0 (run ++ [c]) (i + 1) (by simp [hs]) (by simp [hi]; omega)

theorem reachable_tokens_is_sublist (l : List UserBreakpointToken) :
    (reachable_tokens l).Sublist l := by
  rcases l with _ | ⟨t1, rest⟩
  · simp [reachable_tokens]
  · simp only [reachable_tokens]
    split
    · exact List.Sublist.refl _
    · rcases rest with _ | ⟨t2, r2⟩
      · simp
      · simp only
        split
        · exact List.sublist_cons_self _ _
        · exact List.Sublist.refl _

/-- C17: on a NUL-free input every returned token records the index at which
it starts: the characters of the input from `t.i` on, as many as the token's
text is long, are the token's text; and along the returned sequence the
offsets are strictly increasing. -/
theorem tokenize_offsets (s : List Char) (hnul : ∀ c ∈ s, c ≠ '\x00') :
    (∀ t ∈ tokenize_user_breakpoint_str s, (s.drop t.i).take t.value.length = t.value) ∧
    List.Pairwise (fun a b : UserBreakpointToken => a.i < b.i)
      (tokenize_user_breakpoint_str s) := by
  obtain ⟨h1, h2⟩ := lex_runs_offsets s s [] [] 0 (by simp) (by simp)
  rw [tokenize_eq s hnul]
  constructor
  · intro t ht
    exact (h1 t ((reachable_tokens_is_sublist _).subset ht)).1
  · exact h2.sublist (reachable_tokens_is_sublist _)

/-- C17 (witness): the tokens of ` addr = main+4` start at 1, 6, 8, 12, 13. -/
theorem tokenize_offsets_witness :
    tokenize_user_breakpoint_str " addr = main+4".toList =
      [⟨UBPTType.UBPT_TYPE_IDENTIFIER, "addr".toList, 1⟩,
       ⟨UBPTType.UBPT_TYPE_PUNCTUATOR, "=".toList, 6⟩,
       ⟨UBPTType.UBPT_TYPE_IDENTIFIER, "main".toList, 8⟩,
       ⟨UBPTType.UBPT_TYPE_PUNCTUATOR, "+".toList, 12⟩,
       ⟨UBPTType.UBPT_TYPE_IDENTIFIER, "4".toList, 13⟩] ∧
    (∀ t ∈ tokenize_user_breakpoint_str " addr = main+4".toList,
      (" addr = main+4".toList.drop t.i).take t.value.length = t.value) ∧
    List.Pairwise (fun a b : UserBreakpointToken => a.i < b.i)
      (tokenize_user_breakpoint_str " addr = main+4".toList) :=
  ⟨by decide, tokenize_offsets " addr = main+4".toList (by decide)⟩

end Heaptrace
